import Mathlib

/-!
Verification development for the `TransactionQueue` service of the APT-Casino-QIE
repository (`src/services/TransactionQueue.js`, present in the sources as the second
half of the file that also contains its unit tests).

The JavaScript class is embedded shallowly:

* JS values that the validation code inspects are modelled by `JSVal`
  (with JS truthiness, `typeof`-checks and property access on the shapes the
  code actually reads).
* The queue state (`queue`, `processing`, `currentNonce`, and the signer) is the
  structure `QState`; machine time and the `uuid` generator are modelled by
  caller-supplied natural numbers.
* The asynchronous processing loop `process()` (re-entrancy guard, missing-signer
  no-op, nonce initialization, head-of-queue dispatch, removal of terminal
  operations, stop-behind-a-retrying-head, and the `setTimeout` re-activation
  from the `finally` block) is modelled by the fuel-indexed functions
  `processLoop`, `processOnce` and `runQueue`.  Submission outcomes are an
  oracle `Nat → Bool` indexed by a dispatch clock; each run also produces an
  event trace (`QEvent`) used to state temporal properties.
* JS numbers are modelled by `ℚ` (the backoff computation only multiplies,
  takes `min` and floors values far below any float-precision boundary).
-/

set_option maxRecDepth 8000

/-- Transaction kinds accepted by the queue (`'LOG' | 'NFT'`). -/
inductive TxType where
  | LOG
  | NFT
deriving DecidableEq, Repr

/-- The `status` field of a queued transaction. -/
inductive TxStatus where
  | PENDING
  | PROCESSING
  | COMPLETED
  | FAILED
deriving DecidableEq, Repr

/-- Shallow model of the JavaScript values inspected by the queue's validation
code.  `metaObj` models an NFT-metadata object through the three properties the
code reads (`name`, `description`, `attributes`); `object` is any other
non-null object and `array n` an array of length `n` (property access on these
yields `undefined`). -/
inductive JSVal where
  | undefined
  | null
  | boolean (b : Bool)
  | number (q : ℚ)
  | nan
  | string (s : String)
  | object
  | array (len : Nat)
  | metaObj (name description attributes : JSVal)
deriving DecidableEq, Repr

/-- JS truthiness: `undefined`, `null`, `false`, `0`, `NaN` and `""` are falsy;
every object (including an empty array) is truthy. -/
def truthy : JSVal → Bool
  | .undefined => false
  | .null => false
  | .boolean b => b
  | .number q => decide (q ≠ 0)
  | .nan => false
  | .string s => decide (s ≠ "")
  | .object => true
  | .array _ => true
  | .metaObj _ _ _ => true

/-- `v === undefined || v === null`, the check used by the required-field loop
of `validateLogTransaction`. -/
def isMissing : JSVal → Bool
  | .undefined => true
  | .null => true
  | _ => false

/-- `typeof v === 'object'` (note that in JS `typeof null` is `'object'`). -/
def typeofObject : JSVal → Bool
  | .null => true
  | .object => true
  | .array _ => true
  | .metaObj _ _ _ => true
  | _ => false

/-- `typeof v !== 'number' || v < 0`: the test `validateLogTransaction` applies
to `betAmount` and `payout` (`NaN` has `typeof` `'number'` and `NaN < 0` is
false, so `NaN` passes). -/
def invalidAmount : JSVal → Bool
  | .number q => decide (q < 0)
  | .nan => false
  | _ => true

/-- Property access `metadata.name` on the modelled shapes. -/
def metaName : JSVal → JSVal
  | .metaObj n _ _ => n
  | _ => .undefined

/-- Property access `metadata.description` on the modelled shapes. -/
def metaDescription : JSVal → JSVal
  | .metaObj _ d _ => d
  | _ => .undefined

/-- Property access `metadata.attributes` on the modelled shapes. -/
def metaAttributes : JSVal → JSVal
  | .metaObj _ _ a => a
  | _ => .undefined

/-- Model of the external library check `ethers.isAddress`: a 42-character
`0x`-prefixed hexadecimal string (checksum validation of mixed-case addresses
is not modelled; the development only distinguishes well-formed from malformed
addresses). Non-strings are never addresses. -/
def isHexDigit (c : Char) : Bool :=
  c.isDigit || (decide ('a' ≤ c) && decide (c ≤ 'f')) || (decide ('A' ≤ c) && decide (c ≤ 'F'))

/-- See `isHexDigit`; the string form of the address test: the characters are
a leading `0x` followed by exactly 40 hexadecimal digits. -/
def isAddressString (s : String) : Bool :=
  match s.data with
  | '0' :: 'x' :: rest => decide (rest.length = 40) && rest.all isHexDigit
  | _ => false

/-- `ethers.isAddress` lifted to `JSVal`. -/
def ethersIsAddress : JSVal → Bool
  | .string s => isAddressString s
  | _ => false

/-- The `transaction.data` object: the six properties the validators read.
An absent property is `undefined`. -/
structure LogNFTData where
  gameType : JSVal := .undefined
  playerAddress : JSVal := .undefined
  betAmount : JSVal := .undefined
  payout : JSVal := .undefined
  result : JSVal := .undefined
  metadata : JSVal := .undefined
deriving DecidableEq, Repr

/-- The argument of `enqueue`: `{ type, data }`.  A missing or `null` `data`
property is modelled by `none`. -/
structure JSTransaction where
  type : JSVal := .undefined
  data : Option LogNFTData := none
deriving DecidableEq, Repr

/-- A queued transaction, mirroring the object literal built by `enqueue`.
`createdAt` and `lastAttempt` are abstract timestamps, `result` is the opaque
success payload of the submission. -/
structure QTx where
  id : Nat
  type : TxType
  data : LogNFTData
  status : TxStatus
  retryCount : Nat
  createdAt : Nat
  lastAttempt : Option Nat
  error : Option String
  result : Option Nat
deriving DecidableEq, Repr

/-- `this.maxRetries` (constructor default). -/
def maxRetries : Nat := 3

/-- `this.baseDelay` in milliseconds (constructor default). -/
def baseDelay : Nat := 1000

/-- `this.maxDelay` in milliseconds (constructor default). -/
def maxDelay : Nat := 30000

/-- The mutable fields of a `TransactionQueue` instance.  `signerNonce` models
the configured signer: `none` when no signer is set, `some n` when a signer
whose current on-chain nonce is `n` is configured (`signer.getNonce()` returns
`n`).  `clock` counts dispatches; it indexes the submission oracle and serves
as the `lastAttempt` timestamp. -/
structure QState where
  queue : List QTx
  processing : Bool
  currentNonce : Option Nat
  signerNonce : Option Nat
  clock : Nat
deriving DecidableEq, Repr

/-- The fresh `PENDING` record `enqueue` pushes
(`{ id, type, data, status: 'PENDING', retryCount: 0, createdAt, lastAttempt: null, error: null, result: null }`);
the `uuid` and `new Date()` are modelled by the caller-supplied `freshId` and `now`. -/
def newQueuedTx (freshId now : Nat) (k : TxType) (d : LogNFTData) : QTx :=
  { id := freshId
    type := k
    data := d
    status := .PENDING
    retryCount := 0
    createdAt := now
    lastAttempt := none
    error := none
    result := none }

/-- A fresh `TransactionQueue` (constructor defaults: empty queue, not
processing, `currentNonce = null`) holding the given queued transactions and
configured signer. -/
def initialState (txs : List QTx) (signer : Option Nat) : QState :=
  { queue := txs, processing := false, currentNonce := none, signerNonce := signer, clock := 0 }

/-- Observable events of a processing run, used to state temporal claims.
`dispatch` is the moment a transaction is marked `PROCESSING` (in-flight);
`complete`/`fail` record the outcome together with the transaction's
`retryCount` after the attempt; `drop` records removal from the active queue;
`nonceInit` is a `signer.getNonce()` read of the on-chain nonce. -/
inductive QEvent where
  | dispatch (id : Nat)
  | complete (id : Nat) (retryCount : Nat)
  | fail (id : Nat) (retryCount : Nat)
  | drop (id : Nat) (status : TxStatus) (retryCount : Nat)
  | nonceInit (n : Nat)
deriving DecidableEq, Repr

/-- `processTransaction`: marks the transaction `PROCESSING`, records
`lastAttempt`, dispatches the kind-specific submission, and on success marks it
`COMPLETED` (storing the result, clearing the error) or on any thrown error
marks it `FAILED` and increments `retryCount`.

The kind-specific submissions are delegated to fresh `QIEGameLogger` /
`QIEGameNFT` instances built from the queue's provider and signer.
`QIEGameNFT.mintGameNFT` (embedded in `GameHistory.jsx`) submits through its
own ethers contract handle — with an internal retry loop of its own — and
never reads or writes the queue's `currentNonce`; `getNextNonce` is invoked
nowhere in the sources, and the `QIEGameLogger` tests show the same
contract-based shape for the LOG submission.  A whole submission attempt is
therefore abstracted to the oracle's verdict at the current clock, and the
queue's `currentNonce` is left untouched by dispatching. -/
def processTransaction (oracle : Nat → Bool) (st : QState) (tx : QTx) :
    QTx × QState × List QEvent :=
  let tx1 : QTx := { tx with status := .PROCESSING, lastAttempt := some st.clock }
  let st1 : QState := { st with clock := st.clock + 1 }
  if oracle st.clock then
    let tx2 : QTx := { tx1 with status := .COMPLETED, result := some st.clock, error := none }
    (tx2, st1, [QEvent.dispatch tx.id, QEvent.complete tx.id tx2.retryCount])
  else
    let tx2 : QTx := { tx1 with
      status := .FAILED
      error := some "submission failed"
      retryCount := tx1.retryCount + 1 }
    (tx2, st1, [QEvent.dispatch tx.id, QEvent.fail tx.id tx2.retryCount])

/-- The dispatch condition of the `while` loop:
`transaction.status === 'PENDING' || transaction.status === 'FAILED'`. -/
def dispatchable (tx : QTx) : Bool :=
  tx.status == .PENDING || tx.status == .FAILED

/-- The removal condition of the `while` loop: `status === 'COMPLETED' ||
(status === 'FAILED' && retryCount >= maxRetries)`. -/
def isTerminalTx (tx : QTx) : Bool :=
  tx.status == .COMPLETED || (tx.status == .FAILED && decide (maxRetries ≤ tx.retryCount))

/-- The `while (this.queue.length > 0)` loop of `process()`: dispatches the
head when it is `PENDING` or `FAILED`, shifts it off when terminal, and breaks
behind a `FAILED` head that still has retries.  A head that is neither
dispatchable nor removable loops forever in the source; the fuel argument makes
the model total while preserving every finite prefix of behaviour. -/
def processLoop (oracle : Nat → Bool) : Nat → QState → QState × List QEvent
  | 0, st => (st, [])
  | Nat.succ fuel, st =>
    match st.queue with
    | [] => (st, [])
    | tx :: rest =>
      let step : QTx × QState × List QEvent :=
        if dispatchable tx then processTransaction oracle st tx else (tx, st, [])
      let tx' := step.1
      let st' := step.2.1
      let evs := step.2.2
      if isTerminalTx tx' then
        let next := processLoop oracle fuel { st' with queue := rest }
        (next.1, evs ++ QEvent.drop tx'.id tx'.status tx'.retryCount :: next.2)
      else if tx'.status == .FAILED then
        ({ st' with queue := tx' :: rest }, evs)
      else
        let next := processLoop oracle fuel { st' with queue := tx' :: rest }
        (next.1, evs ++ next.2)

/-- One activation of `process()`: the re-entrancy guard, the empty-queue and
missing-signer early returns (all no-ops), the one-time nonce initialization
from `signer.getNonce()` (inlined `initializeNonce`), the processing loop, and
the `finally` reset of the `processing` flag.  The returned boolean records
whether the activation got past the early returns (the source's `finally`
block, which schedules the next activation, runs only in that case). -/
def processOnce (oracle : Nat → Bool) (fuel : Nat) (st : QState) :
    QState × List QEvent × Bool :=
  if st.processing then (st, [], false)
  else
    match st.queue with
    | [] => (st, [], false)
    | _ :: _ =>
      match st.signerNonce with
      | none => (st, [], false)
      | some sn =>
        let st1 : QState := { st with processing := true }
        let init : QState × List QEvent :=
          match st1.currentNonce with
          | none => ({ st1 with currentNonce := some sn }, [QEvent.nonceInit sn])
          | some _ => (st1, [])
        let next := processLoop oracle fuel init.1
        ({ next.1 with processing := false }, init.2 ++ next.2, true)

/-- The retry condition of the `finally` block:
`tx.status === 'PENDING' || (tx.status === 'FAILED' && tx.retryCount < maxRetries)`. -/
def hasRetryable (q : List QTx) : Bool :=
  q.any fun tx => tx.status == .PENDING ||
    (tx.status == .FAILED && decide (tx.retryCount < maxRetries))

/-- The chain of `process()` activations: each activation that ran its loop
schedules the next one (after a backoff delay, irrelevant to the properties
proved here) whenever a pending or retryable transaction remains.  The outer
fuel bounds the number of activations. -/
def runQueue (oracle : Nat → Bool) (fuel : Nat) : Nat → QState → QState × List QEvent
  | 0, st => (st, [])
  | Nat.succ n, st =>
    let r := processOnce oracle fuel st
    if r.2.2 && hasRetryable r.1.queue then
      let r2 := runQueue oracle fuel n r.1
      (r2.1, r.2.1 ++ r2.2)
    else
      (r.1, r.2.1)

/-- The snapshot object returned by `getStatus`. -/
structure StatusView where
  id : Nat
  type : TxType
  status : TxStatus
  retryCount : Nat
  createdAt : Nat
  lastAttempt : Option Nat
  error : Option String
  result : Option Nat
deriving DecidableEq, Repr

/-- `getStatus(id)`: finds the transaction in the (active) queue and returns a
snapshot, or `null` (`none`) when no queued transaction has that id. -/
def getStatus (st : QState) (id : Nat) : Option StatusView :=
  (st.queue.find? fun tx => tx.id == id).map fun tx =>
    { id := tx.id
      type := tx.type
      status := tx.status
      retryCount := tx.retryCount
      createdAt := tx.createdAt
      lastAttempt := tx.lastAttempt
      error := tx.error
      result := tx.result }

/-- `tx.status.toLowerCase()`, the key used by the statistics loop. -/
def statusKey : TxStatus → String
  | .PENDING => "pending"
  | .PROCESSING => "processing"
  | .COMPLETED => "completed"
  | .FAILED => "failed"

/-- JS `stats[k]++` on the values that can occur in the statistics object: a
number is incremented, a boolean is coerced (`false → 0`, `true → 1`) and then
incremented; any other value would become `NaN`. -/
def jsInc : JSVal → JSVal
  | .number q => .number (q + 1)
  | .boolean b => .number ((if b then 1 else 0) + 1)
  | _ => .nan

/-- Increment the statistics field named `k` (the object's keys are unique, so
a map over the association list is exact). -/
def bumpStat (stats : List (String × JSVal)) (k : String) : List (String × JSVal) :=
  stats.map fun kv => if kv.1 = k then (kv.1, jsInc kv.2) else kv

/-- `getStats()`: the object literal
`{ total, pending: 0, processing: 0, completed: 0, failed: 0, processing: this.processing }`
contains the key `processing` twice; per JS object-literal semantics the key
keeps its first position and the value of its last occurrence, so the initial
value of `processing` is the boolean `this.processing` and the numeric
in-flight count initializer is discarded.  The loop then does
`stats[tx.status.toLowerCase()]++` for every queued transaction. -/
def getStats (st : QState) : List (String × JSVal) :=
  st.queue.foldl (fun s tx => bumpStat s (statusKey tx.status))
    [("total", .number st.queue.length), ("pending", .number 0),
     ("processing", .boolean st.processing), ("completed", .number 0),
     ("failed", .number 0)]

/-- Property read `stats[k]` on the statistics object (first matching key;
the statistics object's keys are unique). -/
def fieldOf : List (String × JSVal) → String → Option JSVal
  | [], _ => none
  | kv :: rest, k => if kv.1 = k then some kv.2 else fieldOf rest k

/-- `calculateRetryDelay(retryCount)`:
`Math.floor(min(baseDelay * 2^retryCount, maxDelay) + Math.random() * 0.1 * delay)`.
The draw of `Math.random()` is the parameter `rand ∈ [0, 1)`; JS numbers are
modelled by `ℚ`. -/
def calculateRetryDelay (rand : ℚ) (retryCount : Nat) : ℤ :=
  let delay : ℚ := min ((baseDelay : ℚ) * 2 ^ retryCount) (maxDelay : ℚ)
  let jitter : ℚ := rand * (1 / 10) * delay
  ⌊delay + jitter⌋

/-- The membership test `['LOG', 'NFT'].includes(transaction.type)` (string
comparison; yields no kind for any non-string value). -/
def includesType : JSVal → Option TxType
  | .string s => if s = "LOG" then some .LOG else if s = "NFT" then some .NFT else none
  | _ => none

/-- String interpolation of the offending `type` value into the
invalid-transaction-type message (only the string case is ever reached with a
distinct value; other tags are abbreviated). -/
def jsDisplay : JSVal → String
  | .string s => s
  | .undefined => "undefined"
  | .null => "null"
  | .boolean b => if b then "true" else "false"
  | _ => "object"

/-- `validateLogTransaction(data)`: the required-field loop over
`['gameType', 'playerAddress', 'betAmount', 'payout', 'result']`, then the
address, bet-amount and payout checks, in source order. -/
def validateLogTransaction (d : LogNFTData) : Except String Unit :=
  if isMissing d.gameType then .error "Log transaction missing required field: gameType"
  else if isMissing d.playerAddress then
    .error "Log transaction missing required field: playerAddress"
  else if isMissing d.betAmount then .error "Log transaction missing required field: betAmount"
  else if isMissing d.payout then .error "Log transaction missing required field: payout"
  else if isMissing d.result then .error "Log transaction missing required field: result"
  else if !ethersIsAddress d.playerAddress then .error "Invalid player address in log transaction"
  else if invalidAmount d.betAmount then .error "Invalid bet amount in log transaction"
  else if invalidAmount d.payout then .error "Invalid payout amount in log transaction"
  else .ok ()

/-- `validateNFTTransaction(data)`: address check, metadata object check
(`!data.metadata || typeof data.metadata !== 'object'`), then the truthiness
loop over `['name', 'description', 'attributes']`, in source order. -/
def validateNFTTransaction (d : LogNFTData) : Except String Unit :=
  if !truthy d.playerAddress || !ethersIsAddress d.playerAddress then
    .error "Invalid player address in NFT transaction"
  else if !truthy d.metadata || !typeofObject d.metadata then
    .error "Invalid metadata in NFT transaction"
  else if !truthy (metaName d.metadata) then
    .error "NFT metadata missing required field: name"
  else if !truthy (metaDescription d.metadata) then
    .error "NFT metadata missing required field: description"
  else if !truthy (metaAttributes d.metadata) then
    .error "NFT metadata missing required field: attributes"
  else .ok ()

/-- `validateTransaction(transaction)`: presence, type truthiness, membership
of the type in `['LOG', 'NFT']`, presence of `data`, then the kind-specific
validator, in source order. -/
def validateTransaction (tx : Option JSTransaction) : Except String (TxType × LogNFTData) :=
  match tx with
  | none => .error "Transaction is required"
  | some t =>
    if !truthy t.type then .error "Transaction type is required"
    else
      match includesType t.type with
      | none => .error ("Invalid transaction type: " ++ jsDisplay t.type)
      | some k =>
        match t.data with
        | none => .error "Transaction data is required"
        | some d =>
          match k with
          | .LOG => (validateLogTransaction d).map fun _ => (k, d)
          | .NFT => (validateNFTTransaction d).map fun _ => (k, d)

/-- `enqueue(transaction)`: validates, and only on success pushes a fresh
`PENDING` record and returns its id; on validation failure the error is
rethrown and the state is untouched.  The `uuid` and timestamp are the
caller-supplied `freshId` and `now`; the fire-and-forget kick-off of
`process()` is modelled by explicit subsequent `runQueue` steps. -/
def enqueue (st : QState) (freshId now : Nat) (tx : Option JSTransaction) :
    QState × Except String Nat :=
  match validateTransaction tx with
  | .error e => (st, .error e)
  | .ok kd => ({ st with queue := st.queue ++ [newQueuedTx freshId now kd.1 kd.2] }, .ok freshId)

/-! ## Observations on runs -/

/-- The ids of the queued transactions, in queue order. -/
def idsOf (q : List QTx) : List Nat := q.map (fun tx => tx.id)

/-- Enqueued-queue invariant: every queued transaction is `PENDING` or
`FAILED`, and has strictly fewer than `maxRetries` recorded failures.  Freshly
enqueued transactions satisfy it, and the processing loop preserves it. -/
def QInv (q : List QTx) : Prop :=
  ∀ tx ∈ q, (tx.status = .PENDING ∨ tx.status = .FAILED) ∧ tx.retryCount < maxRetries

/-- `e` witnesses that operation `a` reached a terminal state: either it
completed, or it failed with no retries remaining. -/
def isTerminalFor (a : Nat) (e : QEvent) : Prop :=
  (∃ rc, e = .complete a rc) ∨ (∃ rc, maxRetries ≤ rc ∧ e = .fail a rc)

/-- Temporal ordering on a trace: every dispatch (in-flight transition) of `b`
is strictly preceded by a terminal event of `a`. -/
def GuardedBy (a b : Nat) (tr : List QEvent) : Prop :=
  ∀ n, QEvent.dispatch b ∈ tr.take n → ∃ e ∈ tr.take n, isTerminalFor a e

/-- `a` occurs strictly before `b` in the list `l`. -/
def IdxBefore (a b : Nat) (l : List Nat) : Prop :=
  ∃ i j, i < j ∧ l.get? i = some a ∧ l.get? j = some b

/-- Number of dispatches of operation `i` in a trace. -/
def countDisp (i : Nat) (tr : List QEvent) : Nat := tr.count (QEvent.dispatch i)

/-- Recognizes dispatch events. -/
def isDispatchEv : QEvent → Bool
  | .dispatch _ => true
  | _ => false

/-- Recognizes the on-chain nonce read. -/
def isInitEv : QEvent → Bool
  | .nonceInit _ => true
  | _ => false

/-- Total number of dispatches (submission attempts) in a trace. -/
def countDispAll (tr : List QEvent) : Nat := tr.countP isDispatchEv

/-- Number of on-chain nonce reads in a trace. -/
def countInit (tr : List QEvent) : Nat := tr.countP isInitEv

/-- Remaining dispatch budget of operation `i` in queue `q` (`maxRetries`
minus its recorded failures; zero when absent). -/
def budget (i : Nat) (q : List QTx) : Nat :=
  match q.find? (fun tx => tx.id == i) with
  | some tx => maxRetries - tx.retryCount
  | none => 0

lemma pt_id (oracle : Nat → Bool) (st : QState) (tx : QTx) :
    (processTransaction oracle st tx).1.id = tx.id := by
  unfold processTransaction
  by_cases h : oracle st.clock <;> simp [h]

lemma pt_queue (oracle : Nat → Bool) (st : QState) (tx : QTx) :
    (processTransaction oracle st tx).2.1.queue = st.queue := by
  unfold processTransaction
  by_cases h : oracle st.clock <;> simp [h]

lemma pt_signer (oracle : Nat → Bool) (st : QState) (tx : QTx) :
    (processTransaction oracle st tx).2.1.signerNonce = st.signerNonce := by
  unfold processTransaction
  by_cases h : oracle st.clock <;> simp [h]

lemma pt_processing (oracle : Nat → Bool) (st : QState) (tx : QTx) :
    (processTransaction oracle st tx).2.1.processing = st.processing := by
  unfold processTransaction
  by_cases h : oracle st.clock <;> simp [h]

lemma pt_status (oracle : Nat → Bool) (st : QState) (tx : QTx) :
    ((processTransaction oracle st tx).1.status = .COMPLETED ∧
      (processTransaction oracle st tx).1.retryCount = tx.retryCount) ∨
    ((processTransaction oracle st tx).1.status = .FAILED ∧
      (processTransaction oracle st tx).1.retryCount = tx.retryCount + 1) := by
  unfold processTransaction
  by_cases h : oracle st.clock <;> simp [h]

lemma pt_complete_mem (oracle : Nat → Bool) (st : QState) (tx : QTx)
    (h : (processTransaction oracle st tx).1.status = .COMPLETED) :
    QEvent.complete tx.id tx.retryCount ∈ (processTransaction oracle st tx).2.2 := by
  unfold processTransaction at *
  by_cases ho : oracle st.clock <;> simp_all

lemma pt_fail_mem (oracle : Nat → Bool) (st : QState) (tx : QTx)
    (h : (processTransaction oracle st tx).1.status = .FAILED) :
    QEvent.fail tx.id (tx.retryCount + 1) ∈ (processTransaction oracle st tx).2.2 := by
  unfold processTransaction at *
  by_cases ho : oracle st.clock <;> simp_all

lemma pt_dispatch_eq (oracle : Nat → Bool) (st : QState) (tx : QTx) (i : Nat)
    (h : QEvent.dispatch i ∈ (processTransaction oracle st tx).2.2) : i = tx.id := by
  unfold processTransaction at h
  by_cases ho : oracle st.clock <;> simp_all

lemma pt_count_disp (oracle : Nat → Bool) (st : QState) (tx : QTx) (i : Nat) :
    countDisp i (processTransaction oracle st tx).2.2 = if tx.id = i then 1 else 0 := by
  unfold processTransaction countDisp
  by_cases ho : oracle st.clock <;> by_cases hi : tx.id = i <;>
    simp_all [List.count_cons, List.count_nil]

lemma pt_count_dispAll (oracle : Nat → Bool) (st : QState) (tx : QTx) :
    countDispAll (processTransaction oracle st tx).2.2 = 1 := by
  unfold processTransaction countDispAll
  by_cases ho : oracle st.clock <;> simp_all [List.countP_cons, isDispatchEv]

lemma pt_count_init (oracle : Nat → Bool) (st : QState) (tx : QTx) :
    countInit (processTransaction oracle st tx).2.2 = 0 := by
  unfold processTransaction countInit
  by_cases ho : oracle st.clock <;> simp_all [List.countP_cons, isInitEv]

lemma pt_nonce (oracle : Nat → Bool) (st : QState) (tx : QTx) :
    (processTransaction oracle st tx).2.1.currentNonce = st.currentNonce := by
  unfold processTransaction
  by_cases ho : oracle st.clock <;> simp [ho]

lemma guardedBy_of_not_mem {a b : Nat} {tr : List QEvent} (h : QEvent.dispatch b ∉ tr) :
    GuardedBy a b tr := by
  intro n hmem
  exact absurd (List.mem_of_mem_take hmem) h

lemma guardedBy_append_left {a b : Nat} {t1 t2 : List QEvent}
    (h1 : GuardedBy a b t1) (h2 : QEvent.dispatch b ∉ t2) :
    GuardedBy a b (t1 ++ t2) := by
  intro n hmem
  rw [List.take_append_eq_append_take] at hmem ⊢
  rcases List.mem_append.1 hmem with hm | hm
  · obtain ⟨e, he, hterm⟩ := h1 n hm
    exact ⟨e, List.mem_append_left _ he, hterm⟩
  · exact absurd (List.mem_of_mem_take hm) h2

lemma guardedBy_append_right {a b : Nat} {t1 t2 : List QEvent}
    (h1 : QEvent.dispatch b ∉ t1) (h2 : GuardedBy a b t2) :
    GuardedBy a b (t1 ++ t2) := by
  intro n hmem
  rw [List.take_append_eq_append_take] at hmem ⊢
  rcases List.mem_append.1 hmem with hm | hm
  · exact absurd (List.mem_of_mem_take hm) h1
  · obtain ⟨e, he, hterm⟩ := h2 _ hm
    exact ⟨e, List.mem_append_right _ he, hterm⟩

lemma guardedBy_append_terminal {a b : Nat} {t1 t2 : List QEvent}
    (h1 : GuardedBy a b t1) (e0 : QEvent) (he0 : e0 ∈ t1) (hterm : isTerminalFor a e0) :
    GuardedBy a b (t1 ++ t2) := by
  intro n hmem
  rw [List.take_append_eq_append_take] at hmem ⊢
  rcases List.mem_append.1 hmem with hm | hm
  · obtain ⟨e, he, ht⟩ := h1 n hm
    exact ⟨e, List.mem_append_left _ he, ht⟩
  · have hlen : t1.length < n := by
      by_contra hle
      push_neg at hle
      have hz : n - t1.length = 0 := Nat.sub_eq_zero_of_le hle
      simp [hz] at hm
    have ht1 : t1.take n = t1 := List.take_of_length_le (le_of_lt hlen)
    refine ⟨e0, ?_, hterm⟩
    rw [ht1]
    exact List.mem_append_left _ he0

lemma idxBefore_mem_left {a b : Nat} {l : List Nat} (h : IdxBefore a b l) : a ∈ l := by
  obtain ⟨i, j, hij, ha, hb⟩ := h
  exact List.get?_mem ha

lemma idxBefore_mem_right {a b : Nat} {l : List Nat} (h : IdxBefore a b l) : b ∈ l := by
  obtain ⟨i, j, hij, ha, hb⟩ := h
  exact List.get?_mem hb

lemma idxBefore_cons {a b x : Nat} {l : List Nat} (h : IdxBefore a b (x :: l)) :
    (x = a ∧ b ∈ l) ∨ IdxBefore a b l := by
  obtain ⟨i, j, hij, ha, hb⟩ := h
  cases i with
  | zero =>
    left
    refine ⟨by simpa using ha, ?_⟩
    cases j with
    | zero => omega
    | succ j => exact List.get?_mem (by simpa using hb)
  | succ i =>
    right
    cases j with
    | zero => omega
    | succ j => exact ⟨i, j, by omega, by simpa using ha, by simpa using hb⟩

lemma idxBefore_ne_head {a b x : Nat} {l : List Nat} (hnd : (x :: l).Nodup)
    (h : IdxBefore a b (x :: l)) : b ≠ x := by
  obtain ⟨i, j, hij, ha, hb⟩ := h
  rintro rfl
  cases j with
  | zero => omega
  | succ j =>
    have hbl : b ∈ l := List.get?_mem (by simpa using hb)
    exact (List.nodup_cons.1 hnd).1 hbl

lemma nodup_get?_inj {l : List Nat} (hnd : l.Nodup) {i j a : Nat}
    (hi : l.get? i = some a) (hj : l.get? j = some a) : i = j := by
  obtain ⟨hilen, hig⟩ := List.get?_eq_some.1 hi
  obtain ⟨hjlen, hjg⟩ := List.get?_eq_some.1 hj
  have hgg : l.get ⟨i, hilen⟩ = l.get ⟨j, hjlen⟩ := by rw [hig, hjg]
  have := (List.Nodup.get_inj_iff hnd).1 hgg
  exact congrArg Fin.val this

lemma idxBefore_suffix {a b : Nat} {l l' : List Nat} (hnd : l.Nodup)
    (hsuf : l' <:+ l) (h : IdxBefore a b l) (ha : a ∈ l') : IdxBefore a b l' := by
  obtain ⟨t, ht⟩ := hsuf
  obtain ⟨i, j, hij, hga, hgb⟩ := h
  obtain ⟨m, hm⟩ := List.get?_of_mem ha
  have hga' : l.get? (t.length + m) = some a := by
    rw [← ht, List.get?_append_right (Nat.le_add_right _ _)]
    simpa using hm
  have him : i = t.length + m := nodup_get?_inj hnd hga hga'
  have hjt : t.length ≤ j := by omega
  have hgb' : l'.get? (j - t.length) = some b := by
    have := hgb
    rw [← ht, List.get?_append_right hjt] at this
    exact this
  exact ⟨m, j - t.length, by omega, hm, hgb'⟩

lemma pl_ids_suffix (oracle : Nat → Bool) :
    ∀ (fuel : Nat) (st : QState),
      idsOf (processLoop oracle fuel st).1.queue <:+ idsOf st.queue := by
  intro fuel
  induction fuel with
  | zero => intro st; simp [processLoop]
  | succ fuel ih =>
    intro st
    cases hq : st.queue with
    | nil => simp [processLoop, hq]
    | cons tx rest =>
      simp only [processLoop, hq]
      cases hd : dispatchable tx with
      | true =>
        simp only [hd, if_true]
        rcases hpt : processTransaction oracle st tx with ⟨tx', stp, evs⟩
        have hid : tx'.id = tx.id := by
          have := pt_id oracle st tx; rw [hpt] at this; exact this
        cases hterm : isTerminalTx tx' with
        | true =>
          simp only [hterm, if_true]
          refine (ih { stp with queue := rest }).trans ?_
          simp only [idsOf, List.map_cons]
          exact ⟨[tx.id], rfl⟩
        | false =>
          cases hf : tx'.status == TxStatus.FAILED with
          | true =>
            simp only [hterm, hf, Bool.false_eq_true, if_false, if_true]
            simp [idsOf, hid]
          | false =>
            simp only [hterm, hf, Bool.false_eq_true, if_false]
            refine (ih { stp with queue := tx' :: rest }).trans ?_
            simp [idsOf, hid]
      | false =>
        simp only [hd, Bool.false_eq_true, if_false]
        cases hterm : isTerminalTx tx with
        | true =>
          simp only [hterm, if_true]
          refine (ih { st with queue := rest }).trans ?_
          simp only [idsOf, List.map_cons]
          exact ⟨[tx.id], rfl⟩
        | false =>
          cases hf : tx.status == TxStatus.FAILED with
          | true =>
            simp only [hterm, hf, Bool.false_eq_true, if_false, if_true]
            simp [idsOf]
          | false =>
            simp only [hterm, hf, Bool.false_eq_true, if_false]
            exact ih { st with queue := tx :: rest }

lemma pl_signer (oracle : Nat → Bool) :
    ∀ (fuel : Nat) (st : QState),
      (processLoop oracle fuel st).1.signerNonce = st.signerNonce := by
  intro fuel
  induction fuel with
  | zero => intro st; simp [processLoop]
  | succ fuel ih =>
    intro st
    cases hq : st.queue with
    | nil => simp [processLoop, hq]
    | cons tx rest =>
      simp only [processLoop, hq]
      cases hd : dispatchable tx with
      | true =>
        simp only [hd, if_true]
        rcases hpt : processTransaction oracle st tx with ⟨tx', stp, evs⟩
        have hsg : stp.signerNonce = st.signerNonce := by
          have := pt_signer oracle st tx; rw [hpt] at this; exact this
        cases hterm : isTerminalTx tx' with
        | true =>
          simp only [hterm, if_true]
          rw [ih { stp with queue := rest }]
          exact hsg
        | false =>
          cases hf : tx'.status == TxStatus.FAILED with
          | true =>
            simp only [hterm, hf, Bool.false_eq_true, if_false, if_true]
            exact hsg
          | false =>
            simp only [hterm, hf, Bool.false_eq_true, if_false]
            rw [ih { stp with queue := tx' :: rest }]
            exact hsg
      | false =>
        simp only [hd, Bool.false_eq_true, if_false]
        cases hterm : isTerminalTx tx with
        | true =>
          simp only [hterm, if_true]
          exact ih { st with queue := rest }
        | false =>
          cases hf : tx.status == TxStatus.FAILED with
          | true =>
            simp only [hterm, hf, Bool.false_eq_true, if_false, if_true]
          | false =>
            simp only [hterm, hf, Bool.false_eq_true, if_false]
            exact ih { st with queue := tx :: rest }

lemma qinv_cons {tx : QTx} {rest : List QTx} (h : QInv (tx :: rest)) : QInv rest :=
  fun t ht => h t (List.mem_cons_of_mem _ ht)

lemma qinv_dispatchable {tx : QTx} {rest : List QTx} (h : QInv (tx :: rest)) :
    dispatchable tx = true := by
  rcases (h tx (List.mem_cons_self _ _)).1 with hs | hs <;> simp [dispatchable, hs]

lemma budget_head {i : Nat} {tx : QTx} {q : List QTx} (h : tx.id = i) :
    budget i (tx :: q) = maxRetries - tx.retryCount := by
  simp [budget, List.find?, h]

lemma budget_cons_ne {i : Nat} {tx : QTx} {q : List QTx} (h : tx.id ≠ i) :
    budget i (tx :: q) = budget i q := by
  have hb : (tx.id == i) = false := by simp [h]
  simp [budget, List.find?, hb]

lemma budget_not_mem {i : Nat} {q : List QTx} (h : i ∉ idsOf q) : budget i q = 0 := by
  have hf : q.find? (fun tx => tx.id == i) = none := by
    rw [List.find?_eq_none]
    intro tx htx
    simp only [beq_iff_eq]
    intro hid
    exact h (by simpa [idsOf, hid] using List.mem_map_of_mem (fun t => t.id) htx)
  simp [budget, hf]

lemma pl_dispatch_mem (oracle : Nat → Bool) :
    ∀ (fuel : Nat) (st : QState) (i : Nat),
      QEvent.dispatch i ∈ (processLoop oracle fuel st).2 → i ∈ idsOf st.queue := by
  intro fuel
  induction fuel with
  | zero => intro st i h; simp [processLoop] at h
  | succ fuel ih =>
    intro st i h
    cases hq : st.queue with
    | nil => simp [processLoop, hq] at h
    | cons tx rest =>
      simp only [processLoop, hq] at h
      cases hd : dispatchable tx with
      | true =>
        rw [hd] at h
        simp only [if_true] at h
        rcases hpt : processTransaction oracle st tx with ⟨tx', stp, evs⟩
        rw [hpt] at h
        have hid : tx'.id = tx.id := by
          have := pt_id oracle st tx; rw [hpt] at this; exact this
        have hevs : QEvent.dispatch i ∈ evs → i ∈ idsOf (tx :: rest) := by
          intro hm
          have := pt_dispatch_eq oracle st tx i (by rw [hpt]; exact hm)
          simp [idsOf, this]
        cases hterm : isTerminalTx tx' with
        | true =>
          rw [hterm] at h
          simp only [if_true] at h
          rcases List.mem_append.1 h with hm | hm
          · exact hevs hm
          · rcases List.mem_cons.1 hm with hm | hm
            · exact absurd hm (by simp)
            · have := ih { stp with queue := rest } i hm
              simp only [idsOf, List.map_cons]
              exact List.mem_cons_of_mem _ (by simpa [idsOf] using this)
        | false =>
          cases hf : tx'.status == TxStatus.FAILED with
          | true =>
            rw [hterm, hf] at h
            simp only [Bool.false_eq_true, if_false, if_true] at h
            exact hevs h
          | false =>
            rw [hterm, hf] at h
            simp only [Bool.false_eq_true, if_false] at h
            rcases List.mem_append.1 h with hm | hm
            · exact hevs hm
            · have := ih { stp with queue := tx' :: rest } i hm
              simpa [idsOf, hid] using this
      | false =>
        rw [hd] at h
        simp only [Bool.false_eq_true, if_false] at h
        cases hterm : isTerminalTx tx with
        | true =>
          rw [hterm] at h
          simp only [if_true] at h
          rcases List.mem_append.1 h with hm | hm
          · simp at hm
          · rcases List.mem_cons.1 hm with hm | hm
            · exact absurd hm (by simp)
            · have := ih { st with queue := rest } i hm
              simp only [idsOf, List.map_cons]
              exact List.mem_cons_of_mem _ (by simpa [idsOf] using this)
        | false =>
          cases hf : tx.status == TxStatus.FAILED with
          | true =>
            rw [hterm, hf] at h
            simp only [Bool.false_eq_true, if_false, if_true] at h
            simp at h
          | false =>
            rw [hterm, hf] at h
            simp only [Bool.false_eq_true, if_false] at h
            rcases List.mem_append.1 h with hm | hm
            · simp at hm
            · exact (by simpa [idsOf] using ih { st with queue := tx :: rest } i hm)

lemma pl_inv (oracle : Nat → Bool) :
    ∀ (fuel : Nat) (st : QState), QInv st.queue → QInv (processLoop oracle fuel st).1.queue := by
  intro fuel
  induction fuel with
  | zero => intro st h; simpa [processLoop] using h
  | succ fuel ih =>
    intro st h
    cases hq : st.queue with
    | nil => simpa [processLoop, hq] using (by rw [hq] at h; exact h)
    | cons tx rest =>
      rw [hq] at h
      simp only [processLoop, hq]
      have hd : dispatchable tx = true := qinv_dispatchable h
      rw [hd]
      simp only [if_true]
      rcases hpt : processTransaction oracle st tx with ⟨tx', stp, evs⟩
      have hst : (tx'.status = TxStatus.COMPLETED ∧ tx'.retryCount = tx.retryCount) ∨
          (tx'.status = TxStatus.FAILED ∧ tx'.retryCount = tx.retryCount + 1) := by
        have := pt_status oracle st tx
        rw [hpt] at this
        exact this
      cases hterm : isTerminalTx tx' with
      | true =>
        simp only [if_true]
        exact ih { stp with queue := rest } (by simpa using qinv_cons h)
      | false =>
        cases hf : tx'.status == TxStatus.FAILED with
        | true =>
          simp only [Bool.false_eq_true, if_false, if_true]
          intro t ht
          rcases List.mem_cons.1 ht with rfl | ht
          · have hsf : t.status = TxStatus.FAILED := by simpa using hf
            refine ⟨Or.inr hsf, ?_⟩
            have : ¬ (maxRetries ≤ t.retryCount) := by
              intro hle
              rw [isTerminalTx] at hterm
              simp [hsf, hle] at hterm
            omega
          · exact qinv_cons h t ht
        | false =>
          simp only [Bool.false_eq_true, if_false]
          exfalso
          rcases hst with ⟨hc, _⟩ | ⟨hfs, _⟩
          · rw [isTerminalTx] at hterm
            simp [hc] at hterm
          · simp [hfs] at hf

lemma pl_removed_terminal (oracle : Nat → Bool) :
    ∀ (fuel : Nat) (st : QState) (i : Nat), QInv st.queue →
      i ∈ idsOf st.queue → i ∉ idsOf (processLoop oracle fuel st).1.queue →
      ∃ e ∈ (processLoop oracle fuel st).2, isTerminalFor i e := by
  intro fuel
  induction fuel with
  | zero =>
    intro st i hinv hmem hnot
    simp only [processLoop] at hnot
    exact absurd hmem hnot
  | succ fuel ih =>
    intro st i hinv hmem hnot
    cases hq : st.queue with
    | nil =>
      rw [hq] at hmem
      simp [idsOf] at hmem
    | cons tx rest =>
      rw [hq] at hinv hmem
      simp only [processLoop, hq] at hnot ⊢
      have hd : dispatchable tx = true := qinv_dispatchable hinv
      rw [hd] at hnot ⊢
      simp only [if_true] at hnot ⊢
      rcases hpt : processTransaction oracle st tx with ⟨tx', stp, evs⟩
      rw [hpt] at hnot
      dsimp only at hnot ⊢
      have hid : tx'.id = tx.id := by
        have := pt_id oracle st tx; rw [hpt] at this; exact this
      have hst : (tx'.status = TxStatus.COMPLETED ∧ tx'.retryCount = tx.retryCount) ∨
          (tx'.status = TxStatus.FAILED ∧ tx'.retryCount = tx.retryCount + 1) := by
        have := pt_status oracle st tx
        rw [hpt] at this
        exact this
      cases hterm : isTerminalTx tx' with
      | true =>
        rw [hterm] at hnot
        simp only [if_true] at hnot ⊢
        by_cases hi : i = tx.id
        · rcases hst with ⟨hc, hrc⟩ | ⟨hfs, hrc⟩
          · refine ⟨QEvent.complete tx.id tx.retryCount, ?_, Or.inl ⟨tx.retryCount, by rw [hi]⟩⟩
            have := pt_complete_mem oracle st tx (by rw [hpt]; exact hc)
            rw [hpt] at this
            exact List.mem_append_left _ this
          · have hle : maxRetries ≤ tx'.retryCount := by
              rw [isTerminalTx] at hterm
              simp [hfs] at hterm
              exact hterm
            refine ⟨QEvent.fail tx.id (tx.retryCount + 1), ?_,
              Or.inr ⟨tx.retryCount + 1, ?_, by rw [hi]⟩⟩
            · have := pt_fail_mem oracle st tx (by rw [hpt]; exact hfs)
              rw [hpt] at this
              exact List.mem_append_left _ this
            · omega
        · have hmem' : i ∈ idsOf rest := by
            have h0 : i ∈ tx.id :: idsOf rest := hmem
            rcases List.mem_cons.1 h0 with h1 | h1
            · exact absurd h1 hi
            · exact h1
          obtain ⟨e, he, hte⟩ :=
            ih { stp with queue := rest } i (by simpa using qinv_cons hinv) (by simpa) hnot
          exact ⟨e, List.mem_append_right _ (List.mem_cons_of_mem _ he), hte⟩
      | false =>
        cases hf : tx'.status == TxStatus.FAILED with
        | true =>
          rw [hterm, hf] at hnot
          simp only [Bool.false_eq_true, if_false, if_true] at hnot
          exfalso
          apply hnot
          simpa [idsOf, hid] using hmem
        | false =>
          exfalso
          rcases hst with ⟨hc, _⟩ | ⟨hfs, _⟩
          · rw [isTerminalTx] at hterm
            simp [hc] at hterm
          · simp [hfs] at hf

lemma pl_guarded (oracle : Nat → Bool) :
    ∀ (fuel : Nat) (st : QState) (a b : Nat), QInv st.queue →
      (idsOf st.queue).Nodup → IdxBefore a b (idsOf st.queue) →
      GuardedBy a b (processLoop oracle fuel st).2 := by
  intro fuel
  induction fuel with
  | zero =>
    intro st a b _ _ _
    simp only [processLoop]
    exact guardedBy_of_not_mem (List.not_mem_nil _)
  | succ fuel ih =>
    intro st a b hinv hnd hab
    cases hq : st.queue with
    | nil =>
      simp only [processLoop, hq]
      exact guardedBy_of_not_mem (List.not_mem_nil _)
    | cons tx rest =>
      rw [hq] at hinv hnd hab
      have hbne : b ≠ tx.id := by
        apply idxBefore_ne_head (x := tx.id) (l := idsOf rest)
        · simpa [idsOf] using hnd
        · simpa [idsOf] using hab
      simp only [processLoop, hq]
      have hd : dispatchable tx = true := qinv_dispatchable hinv
      rw [hd]
      simp only [if_true]
      rcases hpt : processTransaction oracle st tx with ⟨tx', stp, evs⟩
      dsimp only
      have hid : tx'.id = tx.id := by
        have := pt_id oracle st tx; rw [hpt] at this; exact this
      have hst : (tx'.status = TxStatus.COMPLETED ∧ tx'.retryCount = tx.retryCount) ∨
          (tx'.status = TxStatus.FAILED ∧ tx'.retryCount = tx.retryCount + 1) := by
        have := pt_status oracle st tx
        rw [hpt] at this
        exact this
      have hevsnb : QEvent.dispatch b ∉ evs := by
        intro hm
        exact hbne (pt_dispatch_eq oracle st tx b (by rw [hpt]; exact hm))
      cases hterm : isTerminalTx tx' with
      | true =>
        simp only [if_true]
        rcases idxBefore_cons (by simpa [idsOf] using hab) with ⟨ha, hbmem⟩ | hab'
        · have hterme : ∃ e ∈ evs, isTerminalFor a e := by
            rcases hst with ⟨hc, hrc⟩ | ⟨hfs, hrc⟩
            · refine ⟨QEvent.complete tx.id tx.retryCount, ?_, Or.inl ⟨tx.retryCount, by rw [← ha]⟩⟩
              have := pt_complete_mem oracle st tx (by rw [hpt]; exact hc)
              rw [hpt] at this
              exact this
            · have hle : maxRetries ≤ tx'.retryCount := by
                rw [isTerminalTx] at hterm
                simp [hfs] at hterm
                exact hterm
              refine ⟨QEvent.fail tx.id (tx.retryCount + 1), ?_,
                Or.inr ⟨tx.retryCount + 1, by omega, by rw [← ha]⟩⟩
              have := pt_fail_mem oracle st tx (by rw [hpt]; exact hfs)
              rw [hpt] at this
              exact this
          obtain ⟨e0, he0, hte0⟩ := hterme
          exact guardedBy_append_terminal (guardedBy_of_not_mem hevsnb) e0 he0 hte0
        · have ihres := ih { stp with queue := rest } a b (by simpa using qinv_cons hinv)
            (by simpa [idsOf] using (List.nodup_cons.1 (by simpa [idsOf] using hnd)).2)
            (by simpa [idsOf] using hab')
          have htail : GuardedBy a b
              (QEvent.drop tx'.id tx'.status tx'.retryCount ::
                (processLoop oracle fuel { stp with queue := rest }).2) := by
            have hg := @guardedBy_append_right a b
              [QEvent.drop tx'.id tx'.status tx'.retryCount] _ (by simp) ihres
            simpa using hg
          exact guardedBy_append_right hevsnb htail
      | false =>
        cases hf : tx'.status == TxStatus.FAILED with
        | true =>
          simp only [Bool.false_eq_true, if_false, if_true]
          exact guardedBy_of_not_mem hevsnb
        | false =>
          exfalso
          rcases hst with ⟨hc, _⟩ | ⟨hfs, _⟩
          · rw [isTerminalTx] at hterm
            simp [hc] at hterm
          · simp [hfs] at hf

lemma countDisp_append (i : Nat) (l1 l2 : List QEvent) :
    countDisp i (l1 ++ l2) = countDisp i l1 + countDisp i l2 :=
  List.count_append _ _ _

lemma countDisp_drop_cons (i a : Nat) (s : TxStatus) (rc : Nat) (l : List QEvent) :
    countDisp i (QEvent.drop a s rc :: l) = countDisp i l := by
  simp [countDisp, List.count_cons]

lemma countDispAll_append (l1 l2 : List QEvent) :
    countDispAll (l1 ++ l2) = countDispAll l1 + countDispAll l2 :=
  List.countP_append _ _ _

lemma countDispAll_drop_cons (a : Nat) (s : TxStatus) (rc : Nat) (l : List QEvent) :
    countDispAll (QEvent.drop a s rc :: l) = countDispAll l := by
  simp [countDispAll, List.countP_cons, isDispatchEv]

lemma countInit_append (l1 l2 : List QEvent) :
    countInit (l1 ++ l2) = countInit l1 + countInit l2 :=
  List.countP_append _ _ _

lemma countInit_drop_cons (a : Nat) (s : TxStatus) (rc : Nat) (l : List QEvent) :
    countInit (QEvent.drop a s rc :: l) = countInit l := by
  simp [countInit, List.countP_cons, isInitEv]

lemma pl_budget (oracle : Nat → Bool) :
    ∀ (fuel : Nat) (st : QState) (i : Nat), QInv st.queue → (idsOf st.queue).Nodup →
      countDisp i (processLoop oracle fuel st).2 +
        budget i (processLoop oracle fuel st).1.queue ≤ budget i st.queue := by
  intro fuel
  induction fuel with
  | zero =>
    intro st i _ _
    simp [processLoop, countDisp]
  | succ fuel ih =>
    intro st i hinv hnd
    cases hq : st.queue with
    | nil => simp [processLoop, hq, countDisp]
    | cons tx rest =>
      rw [hq] at hinv hnd
      simp only [processLoop, hq]
      have hd : dispatchable tx = true := qinv_dispatchable hinv
      rw [hd]
      simp only [if_true]
      rcases hpt : processTransaction oracle st tx with ⟨tx', stp, evs⟩
      dsimp only
      have hid : tx'.id = tx.id := by
        have := pt_id oracle st tx; rw [hpt] at this; exact this
      have hst : (tx'.status = TxStatus.COMPLETED ∧ tx'.retryCount = tx.retryCount) ∨
          (tx'.status = TxStatus.FAILED ∧ tx'.retryCount = tx.retryCount + 1) := by
        have := pt_status oracle st tx
        rw [hpt] at this
        exact this
      have hcevs : countDisp i evs = if tx.id = i then 1 else 0 := by
        have := pt_count_disp oracle st tx i
        rw [hpt] at this
        exact this
      have hrc : tx.retryCount < maxRetries := (hinv tx (List.mem_cons_self _ _)).2
      have hnd0 : (tx.id :: idsOf rest).Nodup := hnd
      have hnotin : tx.id ∉ idsOf rest := (List.nodup_cons.1 hnd0).1
      cases hterm : isTerminalTx tx' with
      | true =>
        simp only [if_true]
        rw [countDisp_append, countDisp_drop_cons]
        by_cases hi : tx.id = i
        · have hc0 : countDisp i (processLoop oracle fuel { stp with queue := rest }).2 = 0 := by
            rw [countDisp, List.count_eq_zero]
            intro hm
            have := pl_dispatch_mem oracle fuel { stp with queue := rest } i hm
            rw [← hi] at this
            exact hnotin (by simpa [idsOf] using this)
          have hb0 : budget i (processLoop oracle fuel { stp with queue := rest }).1.queue = 0 := by
            apply budget_not_mem
            intro hm
            have hsuf := pl_ids_suffix oracle fuel { stp with queue := rest }
            have : i ∈ idsOf rest := by
              have := hsuf.sublist.mem hm
              simpa [idsOf] using this
            rw [← hi] at this
            exact hnotin this
          rw [hcevs, hc0, hb0, budget_head hi, if_pos hi]
          omega
        · have hb : budget i (tx :: rest) = budget i rest := budget_cons_ne hi
          rw [hcevs, hb, if_neg hi]
          have := ih { stp with queue := rest } i (by simpa using qinv_cons hinv)
            ((List.nodup_cons.1 hnd0).2)
          simpa using this
      | false =>
        cases hf : tx'.status == TxStatus.FAILED with
        | true =>
          simp only [Bool.false_eq_true, if_false, if_true]
          have hfs : tx'.status = TxStatus.FAILED := by simpa using hf
          have hrc' : tx'.retryCount = tx.retryCount + 1 := by
            rcases hst with ⟨hc, _⟩ | ⟨_, h2⟩
            · rw [hc] at hfs; cases hfs
            · exact h2
          by_cases hi : tx.id = i
          · rw [hcevs, budget_head hi, budget_head (by rw [hid, hi]), hrc', if_pos hi]
            omega
          · rw [hcevs, if_neg hi, budget_cons_ne hi, budget_cons_ne (by rw [hid]; exact hi)]
            omega
        | false =>
          exfalso
          rcases hst with ⟨hc, _⟩ | ⟨hfs, _⟩
          · rw [isTerminalTx] at hterm
            simp [hc] at hterm
          · simp [hfs] at hf

lemma pl_nonce (oracle : Nat → Bool) :
    ∀ (fuel : Nat) (st : QState),
      (processLoop oracle fuel st).1.currentNonce = st.currentNonce := by
  intro fuel
  induction fuel with
  | zero => intro st; simp [processLoop]
  | succ fuel ih =>
    intro st
    cases hq : st.queue with
    | nil => simp [processLoop, hq]
    | cons tx rest =>
      simp only [processLoop, hq]
      cases hd : dispatchable tx with
      | true =>
        simp only [hd, if_true]
        rcases hpt : processTransaction oracle st tx with ⟨tx', stp, evs⟩
        have hnp : stp.currentNonce = st.currentNonce := by
          have := pt_nonce oracle st tx; rw [hpt] at this; exact this
        cases hterm : isTerminalTx tx' with
        | true =>
          simp only [hterm, if_true]
          rw [ih { stp with queue := rest }]
          exact hnp
        | false =>
          cases hf : tx'.status == TxStatus.FAILED with
          | true =>
            simp only [hterm, hf, Bool.false_eq_true, if_false, if_true]
            exact hnp
          | false =>
            simp only [hterm, hf, Bool.false_eq_true, if_false]
            rw [ih { stp with queue := tx' :: rest }]
            exact hnp
      | false =>
        simp only [hd, Bool.false_eq_true, if_false]
        cases hterm : isTerminalTx tx with
        | true =>
          simp only [hterm, if_true]
          exact ih { st with queue := rest }
        | false =>
          cases hf : tx.status == TxStatus.FAILED with
          | true =>
            simp only [hterm, hf, Bool.false_eq_true, if_false, if_true]
          | false =>
            simp only [hterm, hf, Bool.false_eq_true, if_false]
            exact ih { st with queue := tx :: rest }

lemma pl_countInit (oracle : Nat → Bool) :
    ∀ (fuel : Nat) (st : QState), countInit (processLoop oracle fuel st).2 = 0 := by
  intro fuel
  induction fuel with
  | zero => intro st; simp [processLoop, countInit]
  | succ fuel ih =>
    intro st
    cases hq : st.queue with
    | nil => simp [processLoop, hq, countInit]
    | cons tx rest =>
      simp only [processLoop, hq]
      cases hd : dispatchable tx with
      | true =>
        simp only [if_true]
        rcases hpt : processTransaction oracle st tx with ⟨tx', stp, evs⟩
        dsimp only
        have hci : countInit evs = 0 := by
          have := pt_count_init oracle st tx
          rw [hpt] at this
          exact this
        cases hterm : isTerminalTx tx' with
        | true =>
          simp only [if_true]
          rw [countInit_append, countInit_drop_cons, hci, ih]
        | false =>
          cases hf : tx'.status == TxStatus.FAILED with
          | true =>
            simp only [Bool.false_eq_true, if_false, if_true]
            exact hci
          | false =>
            simp only [Bool.false_eq_true, if_false]
            rw [countInit_append, hci, ih]
      | false =>
        simp only [Bool.false_eq_true, if_false]
        cases hterm : isTerminalTx tx with
        | true =>
          simp only [if_true]
          have := ih { st with queue := rest }
          simp [countInit_drop_cons, this, countInit_append]
        | false =>
          cases hf : tx.status == TxStatus.FAILED with
          | true =>
            simp only [Bool.false_eq_true, if_false, if_true]
            simp [countInit]
          | false =>
            simp only [Bool.false_eq_true, if_false]
            have := ih { st with queue := tx :: rest }
            simp [this, countInit_append]

lemma po_char (oracle : Nat → Bool) (fuel : Nat) (st : QState) :
    ((st.processing = true ∨ st.queue = [] ∨ st.signerNonce = none) ∧
      processOnce oracle fuel st = (st, [], false)) ∨
    (∃ sn, st.signerNonce = some sn ∧ st.processing = false ∧ st.queue ≠ [] ∧
      st.currentNonce = none ∧
      processOnce oracle fuel st =
        (({ (processLoop oracle fuel
              { st with processing := true, currentNonce := some sn }).1 with
            processing := false },
          QEvent.nonceInit sn ::
            (processLoop oracle fuel
              { st with processing := true, currentNonce := some sn }).2,
          true))) ∨
    (∃ sn m, st.signerNonce = some sn ∧ st.processing = false ∧ st.queue ≠ [] ∧
      st.currentNonce = some m ∧
      processOnce oracle fuel st =
        (({ (processLoop oracle fuel { st with processing := true }).1 with
            processing := false },
          (processLoop oracle fuel { st with processing := true }).2,
          true))) := by
  unfold processOnce
  cases hp : st.processing with
  | true => exact Or.inl ⟨Or.inl rfl, by simp⟩
  | false =>
    cases hq : st.queue with
    | nil => exact Or.inl ⟨Or.inr (Or.inl rfl), by simp⟩
    | cons tx rest =>
      cases hsg : st.signerNonce with
      | none => exact Or.inl ⟨Or.inr (Or.inr rfl), by simp⟩
      | some sn =>
        cases hcn : st.currentNonce with
        | none =>
          refine Or.inr (Or.inl ⟨sn, rfl, rfl, by simp, rfl, ?_⟩)
          simp [hq, hsg, hcn]
        | some m =>
          refine Or.inr (Or.inr ⟨sn, m, rfl, rfl, by simp, rfl, ?_⟩)
          simp [hq, hsg, hcn]

lemma po_not_ran (oracle : Nat → Bool) (fuel : Nat) (st : QState)
    (h : (processOnce oracle fuel st).2.2 = false) :
    processOnce oracle fuel st = (st, [], false) := by
  rcases po_char oracle fuel st with ⟨_, he⟩ | ⟨sn, _, _, _, _, he⟩ | ⟨sn, m, _, _, _, _, he⟩
  · exact he
  · rw [he] at h; cases h
  · rw [he] at h; cases h

lemma po_ids_suffix (oracle : Nat → Bool) (fuel : Nat) (st : QState) :
    idsOf (processOnce oracle fuel st).1.queue <:+ idsOf st.queue := by
  rcases po_char oracle fuel st with ⟨_, he⟩ | ⟨sn, _, _, _, _, he⟩ | ⟨sn, m, _, _, _, _, he⟩
  · rw [he]
  · rw [he]
    exact pl_ids_suffix oracle fuel { st with processing := true, currentNonce := some sn }
  · rw [he]
    exact pl_ids_suffix oracle fuel { st with processing := true }

lemma po_dispatch_mem (oracle : Nat → Bool) (fuel : Nat) (st : QState) (i : Nat)
    (h : QEvent.dispatch i ∈ (processOnce oracle fuel st).2.1) : i ∈ idsOf st.queue := by
  rcases po_char oracle fuel st with ⟨_, he⟩ | ⟨sn, _, _, _, _, he⟩ | ⟨sn, m, _, _, _, _, he⟩ <;>
    rw [he] at h
  · simp at h
  · rcases List.mem_cons.1 h with h0 | h0
    · exact absurd h0 (by simp)
    · exact pl_dispatch_mem oracle fuel
        { st with processing := true, currentNonce := some sn } i h0
  · exact pl_dispatch_mem oracle fuel { st with processing := true } i h

lemma po_inv (oracle : Nat → Bool) (fuel : Nat) (st : QState) (hinv : QInv st.queue) :
    QInv (processOnce oracle fuel st).1.queue := by
  rcases po_char oracle fuel st with ⟨_, he⟩ | ⟨sn, _, _, _, _, he⟩ | ⟨sn, m, _, _, _, _, he⟩
  · rw [he]; exact hinv
  · rw [he]
    exact pl_inv oracle fuel { st with processing := true, currentNonce := some sn } hinv
  · rw [he]
    exact pl_inv oracle fuel { st with processing := true } hinv

lemma po_removed_terminal (oracle : Nat → Bool) (fuel : Nat) (st : QState) (i : Nat)
    (hinv : QInv st.queue) (hmem : i ∈ idsOf st.queue)
    (hnot : i ∉ idsOf (processOnce oracle fuel st).1.queue) :
    ∃ e ∈ (processOnce oracle fuel st).2.1, isTerminalFor i e := by
  rcases po_char oracle fuel st with ⟨_, he⟩ | ⟨sn, _, _, _, _, he⟩ | ⟨sn, m, _, _, _, _, he⟩ <;>
    rw [he] at hnot ⊢
  · exact absurd hmem hnot
  · obtain ⟨e, he0, hte⟩ := pl_removed_terminal oracle fuel
      { st with processing := true, currentNonce := some sn } i hinv hmem hnot
    exact ⟨e, List.mem_cons_of_mem _ he0, hte⟩
  · exact pl_removed_terminal oracle fuel { st with processing := true } i hinv hmem hnot

lemma po_guarded (oracle : Nat → Bool) (fuel : Nat) (st : QState) (a b : Nat)
    (hinv : QInv st.queue) (hnd : (idsOf st.queue).Nodup)
    (hab : IdxBefore a b (idsOf st.queue)) :
    GuardedBy a b (processOnce oracle fuel st).2.1 := by
  rcases po_char oracle fuel st with ⟨_, he⟩ | ⟨sn, _, _, _, _, he⟩ | ⟨sn, m, _, _, _, _, he⟩ <;>
    rw [he]
  · exact guardedBy_of_not_mem (by simp)
  · have hg := pl_guarded oracle fuel
      { st with processing := true, currentNonce := some sn } a b hinv hnd hab
    have := @guardedBy_append_right a b [QEvent.nonceInit sn] _ (by simp) hg
    simpa using this
  · exact pl_guarded oracle fuel { st with processing := true } a b hinv hnd hab

lemma po_budget (oracle : Nat → Bool) (fuel : Nat) (st : QState) (i : Nat)
    (hinv : QInv st.queue) (hnd : (idsOf st.queue).Nodup) :
    countDisp i (processOnce oracle fuel st).2.1 +
      budget i (processOnce oracle fuel st).1.queue ≤ budget i st.queue := by
  rcases po_char oracle fuel st with ⟨_, he⟩ | ⟨sn, _, _, _, _, he⟩ | ⟨sn, m, _, _, _, _, he⟩ <;>
    rw [he]
  · simp [countDisp]
  · have hb := pl_budget oracle fuel
      { st with processing := true, currentNonce := some sn } i hinv hnd
    simpa [countDisp, List.count_cons] using hb
  · exact pl_budget oracle fuel { st with processing := true } i hinv hnd

lemma po_signer (oracle : Nat → Bool) (fuel : Nat) (st : QState) :
    (processOnce oracle fuel st).1.signerNonce = st.signerNonce := by
  rcases po_char oracle fuel st with ⟨_, he⟩ | ⟨sn, _, _, _, _, he⟩ | ⟨sn, m, _, _, _, _, he⟩ <;>
    rw [he]
  · exact pl_signer oracle fuel { st with processing := true, currentNonce := some sn }
  · exact pl_signer oracle fuel { st with processing := true }

lemma po_nonce_some (oracle : Nat → Bool) (fuel : Nat) (st : QState) (m : Nat)
    (h : st.currentNonce = some m) :
    (processOnce oracle fuel st).1.currentNonce = some m ∧
    countInit (processOnce oracle fuel st).2.1 = 0 := by
  rcases po_char oracle fuel st with ⟨_, he⟩ | ⟨sn, _, _, _, hcn, he⟩ |
    ⟨sn, m', _, _, _, hcn, he⟩
  · rw [he]
    exact ⟨h, rfl⟩
  · rw [h] at hcn; cases hcn
  · rw [he]
    constructor
    · exact (pl_nonce oracle fuel { st with processing := true }).trans h
    · exact pl_countInit oracle fuel { st with processing := true }

lemma po_nonce_none (oracle : Nat → Bool) (fuel : Nat) (st : QState) (sn : Nat)
    (hp : st.processing = false) (hq0 : st.queue ≠ []) (hsg : st.signerNonce = some sn)
    (hcn : st.currentNonce = none) :
    (∃ t, (processOnce oracle fuel st).2.1 = QEvent.nonceInit sn :: t) ∧
    (processOnce oracle fuel st).1.currentNonce = some sn ∧
    countInit (processOnce oracle fuel st).2.1 = 1 ∧
    (processOnce oracle fuel st).2.2 = true := by
  rcases po_char oracle fuel st with ⟨hg, he⟩ | ⟨sn', hsg', _, _, _, he⟩ |
    ⟨sn', m', hsg', _, _, hcn', he⟩
  · rcases hg with h1 | h1 | h1
    · rw [hp] at h1; cases h1
    · exact absurd h1 hq0
    · rw [hsg] at h1; cases h1
  · have hsn : sn' = sn := by rw [hsg] at hsg'; exact (Option.some.inj hsg').symm
    subst hsn
    rw [he]
    refine ⟨⟨_, rfl⟩, ?_, ?_, rfl⟩
    · exact pl_nonce oracle fuel { st with processing := true, currentNonce := some sn' }
    · have := pl_countInit oracle fuel
        { st with processing := true, currentNonce := some sn' }
      simpa [countInit, List.countP_cons, isInitEv] using this
  · rw [hcn] at hcn'; cases hcn'

lemma guardedBy_append_both {a b : Nat} {t1 t2 : List QEvent}
    (h1 : GuardedBy a b t1) (h2 : GuardedBy a b t2) : GuardedBy a b (t1 ++ t2) := by
  intro n hmem
  rw [List.take_append_eq_append_take] at hmem ⊢
  rcases List.mem_append.1 hmem with hm | hm
  · obtain ⟨e, he, ht⟩ := h1 n hm
    exact ⟨e, List.mem_append_left _ he, ht⟩
  · obtain ⟨e, he, ht⟩ := h2 _ hm
    exact ⟨e, List.mem_append_right _ he, ht⟩

lemma rq_succ (oracle : Nat → Bool) (fuel n : Nat) (st : QState) :
    runQueue oracle fuel (n + 1) st =
      (if (processOnce oracle fuel st).2.2 &&
          hasRetryable (processOnce oracle fuel st).1.queue then
        ((runQueue oracle fuel n (processOnce oracle fuel st).1).1,
          (processOnce oracle fuel st).2.1 ++
            (runQueue oracle fuel n (processOnce oracle fuel st).1).2)
      else ((processOnce oracle fuel st).1, (processOnce oracle fuel st).2.1)) := rfl

lemma rq_dispatch_mem (oracle : Nat → Bool) (fuel : Nat) :
    ∀ (n : Nat) (st : QState) (i : Nat),
      QEvent.dispatch i ∈ (runQueue oracle fuel n st).2 → i ∈ idsOf st.queue := by
  intro n
  induction n with
  | zero => intro st i h; simp [runQueue] at h
  | succ n ih =>
    intro st i h
    rw [rq_succ] at h
    cases hc : (processOnce oracle fuel st).2.2 &&
        hasRetryable (processOnce oracle fuel st).1.queue with
    | false =>
      rw [hc] at h
      simp only [Bool.false_eq_true, if_false] at h
      exact po_dispatch_mem oracle fuel st i h
    | true =>
      rw [hc] at h
      simp only [if_true] at h
      rcases List.mem_append.1 h with hm | hm
      · exact po_dispatch_mem oracle fuel st i hm
      · have := ih (processOnce oracle fuel st).1 i hm
        exact (po_ids_suffix oracle fuel st).sublist.mem this

lemma rq_inv (oracle : Nat → Bool) (fuel : Nat) :
    ∀ (n : Nat) (st : QState), QInv st.queue → QInv (runQueue oracle fuel n st).1.queue := by
  intro n
  induction n with
  | zero => intro st h; simpa [runQueue] using h
  | succ n ih =>
    intro st h
    rw [rq_succ]
    cases hc : (processOnce oracle fuel st).2.2 &&
        hasRetryable (processOnce oracle fuel st).1.queue with
    | false =>
      simp only [Bool.false_eq_true, if_false]
      exact po_inv oracle fuel st h
    | true =>
      simp only [if_true]
      exact ih (processOnce oracle fuel st).1 (po_inv oracle fuel st h)

lemma rq_ids_suffix (oracle : Nat → Bool) (fuel : Nat) :
    ∀ (n : Nat) (st : QState),
      idsOf (runQueue oracle fuel n st).1.queue <:+ idsOf st.queue := by
  intro n
  induction n with
  | zero => intro st; simp [runQueue]
  | succ n ih =>
    intro st
    rw [rq_succ]
    cases hc : (processOnce oracle fuel st).2.2 &&
        hasRetryable (processOnce oracle fuel st).1.queue with
    | false =>
      simp only [Bool.false_eq_true, if_false]
      exact po_ids_suffix oracle fuel st
    | true =>
      simp only [if_true]
      exact (ih (processOnce oracle fuel st).1).trans (po_ids_suffix oracle fuel st)

lemma rq_guarded (oracle : Nat → Bool) (fuel : Nat) :
    ∀ (n : Nat) (st : QState) (a b : Nat), QInv st.queue → (idsOf st.queue).Nodup →
      IdxBefore a b (idsOf st.queue) → GuardedBy a b (runQueue oracle fuel n st).2 := by
  intro n
  induction n with
  | zero =>
    intro st a b _ _ _
    simp only [runQueue]
    exact guardedBy_of_not_mem (List.not_mem_nil _)
  | succ n ih =>
    intro st a b hinv hnd hab
    rw [rq_succ]
    cases hc : (processOnce oracle fuel st).2.2 &&
        hasRetryable (processOnce oracle fuel st).1.queue with
    | false =>
      simp only [Bool.false_eq_true, if_false]
      exact po_guarded oracle fuel st a b hinv hnd hab
    | true =>
      simp only [if_true]
      have hg1 : GuardedBy a b (processOnce oracle fuel st).2.1 :=
        po_guarded oracle fuel st a b hinv hnd hab
      by_cases hamem : a ∈ idsOf (processOnce oracle fuel st).1.queue
      · by_cases hbmem : b ∈ idsOf (processOnce oracle fuel st).1.queue
        · have hab' : IdxBefore a b (idsOf (processOnce oracle fuel st).1.queue) :=
            idxBefore_suffix hnd (po_ids_suffix oracle fuel st) hab hamem
          have hg2 := ih (processOnce oracle fuel st).1 a b (po_inv oracle fuel st hinv)
            (hnd.sublist (po_ids_suffix oracle fuel st).sublist) hab'
          exact guardedBy_append_both hg1 hg2
        · have hnb : QEvent.dispatch b ∉ (runQueue oracle fuel n (processOnce oracle fuel st).1).2 := by
            intro hm
            exact hbmem (rq_dispatch_mem oracle fuel n (processOnce oracle fuel st).1 b hm)
          exact guardedBy_append_left hg1 hnb
      · obtain ⟨e0, he0, hte0⟩ := po_removed_terminal oracle fuel st a hinv
          (idxBefore_mem_left hab) hamem
        exact guardedBy_append_terminal hg1 e0 he0 hte0

lemma rq_budget (oracle : Nat → Bool) (fuel : Nat) :
    ∀ (n : Nat) (st : QState) (i : Nat), QInv st.queue → (idsOf st.queue).Nodup →
      countDisp i (runQueue oracle fuel n st).2 +
        budget i (runQueue oracle fuel n st).1.queue ≤ budget i st.queue := by
  intro n
  induction n with
  | zero => intro st i _ _; simp [runQueue, countDisp]
  | succ n ih =>
    intro st i hinv hnd
    rw [rq_succ]
    cases hc : (processOnce oracle fuel st).2.2 &&
        hasRetryable (processOnce oracle fuel st).1.queue with
    | false =>
      simp only [Bool.false_eq_true, if_false]
      exact po_budget oracle fuel st i hinv hnd
    | true =>
      simp only [if_true]
      rw [countDisp_append]
      have h1 := po_budget oracle fuel st i hinv hnd
      have h2 := ih (processOnce oracle fuel st).1 i (po_inv oracle fuel st hinv)
        (hnd.sublist (po_ids_suffix oracle fuel st).sublist)
      omega

lemma rq_nonce_some (oracle : Nat → Bool) (fuel : Nat) :
    ∀ (n : Nat) (st : QState) (m : Nat), st.currentNonce = some m →
      (runQueue oracle fuel n st).1.currentNonce = some m ∧
      countInit (runQueue oracle fuel n st).2 = 0 := by
  intro n
  induction n with
  | zero =>
    intro st m h
    simpa [runQueue, countInit] using h
  | succ n ih =>
    intro st m h
    rw [rq_succ]
    cases hc : (processOnce oracle fuel st).2.2 &&
        hasRetryable (processOnce oracle fuel st).1.queue with
    | false =>
      simp only [Bool.false_eq_true, if_false]
      exact po_nonce_some oracle fuel st m h
    | true =>
      simp only [if_true]
      obtain ⟨hn1, hi1⟩ := po_nonce_some oracle fuel st m h
      obtain ⟨hn2, hi2⟩ := ih (processOnce oracle fuel st).1 m hn1
      refine ⟨hn2, ?_⟩
      rw [countInit_append, hi1, hi2]

lemma rq_nonce_none (oracle : Nat → Bool) (fuel : Nat) :
    ∀ (n : Nat) (st : QState) (sn : Nat), st.processing = false → st.queue ≠ [] →
      st.signerNonce = some sn → st.currentNonce = none → 1 ≤ n →
      (∃ t, (runQueue oracle fuel n st).2 = QEvent.nonceInit sn :: t) ∧
      (runQueue oracle fuel n st).1.currentNonce = some sn ∧
      countInit (runQueue oracle fuel n st).2 = 1 := by
  intro n
  cases n with
  | zero => intro st sn _ _ _ _ h1; omega
  | succ n =>
    intro st sn hp hq0 hsg hcn _
    rw [rq_succ]
    obtain ⟨⟨t, ht⟩, hn1, hi1, hran⟩ := po_nonce_none oracle fuel st sn hp hq0 hsg hcn
    rw [hran]
    cases hr : hasRetryable (processOnce oracle fuel st).1.queue with
    | false =>
      simp only [Bool.true_and, Bool.false_eq_true, if_false]
      exact ⟨⟨t, ht⟩, hn1, hi1⟩
    | true =>
      simp only [Bool.true_and, if_true]
      obtain ⟨hn2, hi2⟩ := rq_nonce_some oracle fuel n (processOnce oracle fuel st).1 sn hn1
      refine ⟨⟨t ++ (runQueue oracle fuel n (processOnce oracle fuel st).1).2, ?_⟩, hn2, ?_⟩
      · rw [ht, List.cons_append]
      · rw [countInit_append, hi1, hi2]

lemma find_id_of_mem {q : List QTx} {tx : QTx} (hnd : (idsOf q).Nodup) (hm : tx ∈ q) :
    q.find? (fun t => t.id == tx.id) = some tx := by
  induction q with
  | nil => cases hm
  | cons h0 rest ih =>
    have hnd0 : (h0.id :: idsOf rest).Nodup := hnd
    rcases List.mem_cons.1 hm with rfl | hm'
    · simp [List.find?]
    · have hne : (h0.id == tx.id) = false := by
        simp only [beq_eq_false_iff_ne, ne_eq]
        intro he
        apply (List.nodup_cons.1 hnd0).1
        rw [he]
        exact List.mem_map_of_mem (fun t => t.id) hm'
      simp only [List.find?, hne]
      exact ih (List.nodup_cons.1 hnd0).2 hm'

lemma budget_of_mem {q : List QTx} {tx : QTx} (hnd : (idsOf q).Nodup) (hm : tx ∈ q) :
    budget tx.id q = maxRetries - tx.retryCount := by
  simp [budget, find_id_of_mem hnd hm]

lemma rq_no_signer (oracle : Nat → Bool) (fuel : Nat) :
    ∀ (n : Nat) (st : QState), st.signerNonce = none →
      runQueue oracle fuel n st = (st, []) := by
  intro n
  cases n with
  | zero => intro st _; rfl
  | succ n =>
    intro st hsg
    have hpo : processOnce oracle fuel st = (st, [], false) := by
      rcases po_char oracle fuel st with ⟨_, he⟩ | ⟨sn, hsg', _, _, _, _⟩ |
        ⟨sn, m, hsg', _, _, _, _⟩
      · exact he
      · rw [hsg] at hsg'; cases hsg'
      · rw [hsg] at hsg'; cases hsg'
    rw [rq_succ, hpo]
    simp

/-- Count of queued transactions in a given status. -/
def countStatus (s : TxStatus) (q : List QTx) : Nat :=
  q.countP (fun tx => tx.status == s)

/-- The canonical shape of the statistics object. -/
def statsShape (t p : ℚ) (pr : JSVal) (c f : ℚ) : List (String × JSVal) :=
  [("total", .number t), ("pending", .number p), ("processing", pr),
   ("completed", .number c), ("failed", .number f)]

lemma bumpStat_statsShape_pending (t p : ℚ) (pr : JSVal) (c f : ℚ) :
    bumpStat (statsShape t p pr c f) "pending" = statsShape t (p + 1) pr c f := by
  simp [bumpStat, statsShape, jsInc]

lemma bumpStat_statsShape_completed (t p : ℚ) (pr : JSVal) (c f : ℚ) :
    bumpStat (statsShape t p pr c f) "completed" = statsShape t p pr (c + 1) f := by
  simp [bumpStat, statsShape, jsInc]

lemma bumpStat_statsShape_failed (t p : ℚ) (pr : JSVal) (c f : ℚ) :
    bumpStat (statsShape t p pr c f) "failed" = statsShape t p pr c (f + 1) := by
  simp [bumpStat, statsShape, jsInc]

lemma fold_statsShape (q : List QTx) :
    ∀ (t p : ℚ) (pr : JSVal) (c f : ℚ), (∀ tx ∈ q, tx.status ≠ .PROCESSING) →
      q.foldl (fun s tx => bumpStat s (statusKey tx.status)) (statsShape t p pr c f) =
        statsShape t (p + countStatus .PENDING q) pr (c + countStatus .COMPLETED q)
          (f + countStatus .FAILED q) := by
  induction q with
  | nil => intro t p pr c f _; simp [countStatus]
  | cons tx rest ih =>
    intro t p pr c f hnp
    have hrest : ∀ t ∈ rest, t.status ≠ TxStatus.PROCESSING :=
      fun t ht => hnp t (List.mem_cons_of_mem _ ht)
    rw [List.foldl_cons]
    cases hs : tx.status with
    | PENDING =>
      have hP : countStatus .PENDING (tx :: rest) = countStatus .PENDING rest + 1 := by
        simp [countStatus, List.countP_cons, hs]
      have hC : countStatus .COMPLETED (tx :: rest) = countStatus .COMPLETED rest := by
        simp [countStatus, List.countP_cons, hs]
      have hF : countStatus .FAILED (tx :: rest) = countStatus .FAILED rest := by
        simp [countStatus, List.countP_cons, hs]
      have hb : bumpStat (statsShape t p pr c f) (statusKey TxStatus.PENDING) =
          statsShape t (p + 1) pr c f := bumpStat_statsShape_pending t p pr c f
      rw [hb, ih t (p + 1) pr c f hrest, hP, hC, hF]
      have harith : p + 1 + (countStatus .PENDING rest : ℚ) =
          p + ((countStatus .PENDING rest + 1 : Nat) : ℚ) := by push_cast; ring
      rw [harith]
    | PROCESSING => exact absurd hs (hnp tx (List.mem_cons_self _ _))
    | COMPLETED =>
      have hP : countStatus .PENDING (tx :: rest) = countStatus .PENDING rest := by
        simp [countStatus, List.countP_cons, hs]
      have hC : countStatus .COMPLETED (tx :: rest) = countStatus .COMPLETED rest + 1 := by
        simp [countStatus, List.countP_cons, hs]
      have hF : countStatus .FAILED (tx :: rest) = countStatus .FAILED rest := by
        simp [countStatus, List.countP_cons, hs]
      have hb : bumpStat (statsShape t p pr c f) (statusKey TxStatus.COMPLETED) =
          statsShape t p pr (c + 1) f := bumpStat_statsShape_completed t p pr c f
      rw [hb, ih t p pr (c + 1) f hrest, hP, hC, hF]
      have harith : c + 1 + (countStatus .COMPLETED rest : ℚ) =
          c + ((countStatus .COMPLETED rest + 1 : Nat) : ℚ) := by push_cast; ring
      rw [harith]
    | FAILED =>
      have hP : countStatus .PENDING (tx :: rest) = countStatus .PENDING rest := by
        simp [countStatus, List.countP_cons, hs]
      have hC : countStatus .COMPLETED (tx :: rest) = countStatus .COMPLETED rest := by
        simp [countStatus, List.countP_cons, hs]
      have hF : countStatus .FAILED (tx :: rest) = countStatus .FAILED rest + 1 := by
        simp [countStatus, List.countP_cons, hs]
      have hb : bumpStat (statsShape t p pr c f) (statusKey TxStatus.FAILED) =
          statsShape t p pr c (f + 1) := bumpStat_statsShape_failed t p pr c f
      rw [hb, ih t p pr c (f + 1) hrest, hP, hC, hF]
      have harith : f + 1 + (countStatus .FAILED rest : ℚ) =
          f + ((countStatus .FAILED rest + 1 : Nat) : ℚ) := by push_cast; ring
      rw [harith]

lemma fieldOf_bumpStat (stats : List (String × JSVal)) (k k' : String) (h : k' ≠ k) :
    fieldOf (bumpStat stats k) k' = fieldOf stats k' := by
  induction stats with
  | nil => rfl
  | cons p rest ih =>
    simp only [bumpStat, List.map_cons]
    by_cases hpk : p.1 = k
    · rw [if_pos hpk]
      simp only [fieldOf]
      rw [if_neg (fun e => h (e.symm.trans hpk)), if_neg (fun e => h (e.symm.trans hpk))]
      exact ih
    · rw [if_neg hpk]
      simp only [fieldOf]
      by_cases hpk' : p.1 = k'
      · rw [if_pos hpk', if_pos hpk']
      · rw [if_neg hpk', if_neg hpk']
        exact ih

lemma fieldOf_foldl_bump (q : List QTx) :
    ∀ (stats : List (String × JSVal)) (k' : String),
      (∀ tx ∈ q, statusKey tx.status ≠ k') →
      fieldOf (q.foldl (fun s tx => bumpStat s (statusKey tx.status)) stats) k' =
        fieldOf stats k' := by
  induction q with
  | nil => intro stats k' _; rfl
  | cons tx rest ih =>
    intro stats k' h
    rw [List.foldl_cons, ih _ _ (fun t ht => h t (List.mem_cons_of_mem _ ht)),
      fieldOf_bumpStat _ _ _ (fun e => h tx (List.mem_cons_self _ _) e.symm)]

lemma getStats_total (st : QState) :
    fieldOf (getStats st) "total" = some (.number st.queue.length) := by
  have hside : ∀ tx ∈ st.queue, statusKey tx.status ≠ "total" := by
    intro tx _
    cases tx.status <;> decide
  unfold getStats
  rw [fieldOf_foldl_bump _ _ _ hside]
  simp [fieldOf]

lemma getStats_eq_shape (st : QState) (h : ∀ tx ∈ st.queue, tx.status ≠ .PROCESSING) :
    getStats st = statsShape st.queue.length (0 + countStatus .PENDING st.queue)
      (.boolean st.processing) (0 + countStatus .COMPLETED st.queue)
      (0 + countStatus .FAILED st.queue) :=
  fold_statsShape st.queue st.queue.length 0 (.boolean st.processing) 0 0 h

/-! ## Claims -/

set_option maxHeartbeats 4000000

/-- C1: For every two operations enqueued in order A then B, B never reaches the
in-flight (`PROCESSING`) state before A reaches a terminal state (`COMPLETED`,
or `FAILED` with no retries remaining): over any run of the processing loop
(`runQueue`) from a queue in which A precedes B, every dispatch of B in the
event trace is strictly preceded by a terminal event of A — the loop only
dispatches the head of the queue and stops behind a retrying head. -/
theorem tq_strict_order_guarantee (oracle : Nat → Bool) (fuel n : Nat) (st : QState)
    (hinv : QInv st.queue) (hnd : (idsOf st.queue).Nodup)
    (a b : Nat) (hab : IdxBefore a b (idsOf st.queue)) :
    GuardedBy a b (runQueue oracle fuel n st).2 :=
  rq_guarded oracle fuel n st a b hinv hnd hab

/-- Witness for C1 at a concrete two-element queue. -/
theorem tq_strict_order_guarantee_witness :
    GuardedBy 0 1 (runQueue (fun _ => true) 4 3
      (initialState [newQueuedTx 0 0 .LOG {}, newQueuedTx 1 0 .NFT {}] (some 5))).2 :=
  tq_strict_order_guarantee (fun _ => true) 4 3
    (initialState [newQueuedTx 0 0 .LOG {}, newQueuedTx 1 0 .NFT {}] (some 5))
    (by unfold QInv; decide) (by decide) 0 1 ⟨0, 1, by omega, rfl, rfl⟩

/-- C2: For every enqueued operation whose submission always fails, the
operation reaches terminal `FAILED` with `retryCount == 3` and is never
dispatched a fourth time.  The first conjunct is the general cap: on any run
from a well-formed queue, a transaction enqueued with `retryCount = 0` is
dispatched at most `maxRetries = 3` times.  The second conjunct runs the
always-failing submission on a concrete enqueued operation: exactly three
dispatches, a terminal `fail` event with `retryCount = 3`, removal from the
active queue, and an empty final queue. -/
theorem tq_retry_cap :
    (∀ (oracle : Nat → Bool) (fuel n : Nat) (st : QState) (tx : QTx),
      QInv st.queue → (idsOf st.queue).Nodup → tx ∈ st.queue → tx.retryCount = 0 →
      countDisp tx.id (runQueue oracle fuel n st).2 ≤ maxRetries) ∧
    (countDisp 0 (runQueue (fun _ => false) 2 3
        (initialState [newQueuedTx 0 0 .LOG {}] (some 5))).2 = 3 ∧
      QEvent.fail 0 3 ∈ (runQueue (fun _ => false) 2 3
        (initialState [newQueuedTx 0 0 .LOG {}] (some 5))).2 ∧
      QEvent.drop 0 TxStatus.FAILED 3 ∈ (runQueue (fun _ => false) 2 3
        (initialState [newQueuedTx 0 0 .LOG {}] (some 5))).2 ∧
      (runQueue (fun _ => false) 2 3
        (initialState [newQueuedTx 0 0 .LOG {}] (some 5))).1.queue = []) := by
  constructor
  · intro oracle fuel n st tx hinv hnd hm hrc
    have hb := rq_budget oracle fuel n st tx.id hinv hnd
    have hbg : budget tx.id st.queue = maxRetries - tx.retryCount := budget_of_mem hnd hm
    rw [hrc] at hbg
    omega
  · decide

/-- Witness for C2's general cap at a concrete queue and oracle. -/
theorem tq_retry_cap_witness :
    countDisp 0 (runQueue (fun _ => true) 2 2
      (initialState [newQueuedTx 0 0 .LOG {}] (some 5))).2 ≤ maxRetries :=
  tq_retry_cap.1 (fun _ => true) 2 2 (initialState [newQueuedTx 0 0 .LOG {}] (some 5))
    (newQueuedTx 0 0 .LOG {}) (by unfold QInv; decide) (by decide) (by decide) rfl

/-- C3 counterexample: with a submission that fails exactly twice and then
succeeds, the enqueued operation reaches `COMPLETED` with `retryCount = 2`,
not 3: the code increments the counter only in the failure handler, never at
dispatch.  The trace of the concrete run contains `complete` with counter 2
and no `complete` with counter 3. -/
theorem tq_attempt_count_cex :
    QEvent.complete 0 2 ∈ (runQueue (fun c => decide (2 ≤ c)) 2 3
      (initialState [newQueuedTx 0 0 .LOG {}] (some 5))).2 ∧
    QEvent.complete 0 3 ∉ (runQueue (fun c => decide (2 ≤ c)) 2 3
      (initialState [newQueuedTx 0 0 .LOG {}] (some 5))).2 := by
  decide

/-- C3 (amended): the retry counter is incremented on each failed dispatch
(in the failure handler), while `lastAttempt` is recorded at dispatch; an
operation whose submission fails exactly twice and then succeeds reaches
`COMPLETED` with `retryCount == 2` after exactly three dispatches and is then
removed from the queue.  Proved for every id, timestamp, kind, payload and
signer nonce by computing the full event trace. -/
theorem tq_attempt_count_after_two_failures (i now sn : Nat) (k : TxType) (d : LogNFTData) :
    (runQueue (fun c => decide (2 ≤ c)) 2 3
        (initialState [newQueuedTx i now k d] (some sn))).2 =
      [QEvent.nonceInit sn, QEvent.dispatch i, QEvent.fail i 1,
       QEvent.dispatch i, QEvent.fail i 2,
       QEvent.dispatch i, QEvent.complete i 2,
       QEvent.drop i TxStatus.COMPLETED 2] ∧
    (runQueue (fun c => decide (2 ≤ c)) 2 3
        (initialState [newQueuedTx i now k d] (some sn))).1.queue = [] := by
  constructor <;> rfl

/-- C4 counterexample: after an operation completes and is removed from the
active queue, `getStatus` with its id returns `none` (a not-found signal), not
its terminal result: `getStatus` searches only the live queue. -/
theorem tq_status_after_removal_cex :
    QEvent.complete 0 0 ∈ (runQueue (fun _ => true) 2 2
      (initialState [newQueuedTx 0 0 .LOG {}] (some 5))).2 ∧
    QEvent.drop 0 TxStatus.COMPLETED 0 ∈ (runQueue (fun _ => true) 2 2
      (initialState [newQueuedTx 0 0 .LOG {}] (some 5))).2 ∧
    getStatus (runQueue (fun _ => true) 2 2
      (initialState [newQueuedTx 0 0 .LOG {}] (some 5))).1 0 = none := by
  decide

/-- C4 (amended): once an operation reaches a terminal state and is removed
from the active queue, `getStatus(id)` returns the not-found signal (`null`)
rather than the terminal result; the terminal result is queryable only while
the operation is still queued.  First conjunct: `getStatus` is `none` for
every id not in the live queue.  Second conjunct: in the concrete
complete-and-remove scenario (for every id, payload and signer), the
operation's id is no longer found. -/
theorem tq_status_after_removal :
    (∀ (st : QState) (i : Nat), i ∉ idsOf st.queue → getStatus st i = none) ∧
    (∀ (i now sn : Nat) (k : TxType) (d : LogNFTData),
      getStatus (runQueue (fun _ => true) 2 2
        (initialState [newQueuedTx i now k d] (some sn))).1 i = none) := by
  constructor
  · intro st i hni
    have hf : st.queue.find? (fun tx => tx.id == i) = none := by
      rw [List.find?_eq_none]
      intro tx htx
      simp only [beq_iff_eq]
      intro he
      exact hni (by simpa [idsOf, he] using List.mem_map_of_mem (fun t => t.id) htx)
    unfold getStatus
    rw [hf]
    rfl
  · intro i now sn k d
    rfl

/-- Witness for C4's amended not-found behaviour at a concrete state. -/
theorem tq_status_after_removal_witness :
    getStatus (initialState [] none) 7 = none :=
  tq_status_after_removal.1 (initialState [] none) 7 (by decide)

/-- C5 counterexample: the locally initialized nonce counter is NOT
incremented per submission attempt.  In a run whose submissions always fail,
the operation is dispatched 3 times, yet the local counter still holds the
initial on-chain value (5), not 5 + 3: `getNextNonce`, the only method that
would increment `currentNonce`, is invoked nowhere — `processTransaction`
delegates submission to `QIEGameLogger.logGameResult` /
`QIEGameNFT.mintGameNFT`, and `mintGameNFT` (embedded in `GameHistory.jsx`)
sends through its own ethers contract handle without touching the queue's
counter. -/
theorem tq_nonce_increment_cex :
    countDispAll (runQueue (fun _ => false) 2 3
      (initialState [newQueuedTx 0 0 .LOG {}] (some 5))).2 = 3 ∧
    (runQueue (fun _ => false) 2 3
      (initialState [newQueuedTx 0 0 .LOG {}] (some 5))).1.currentNonce = some 5 := by
  decide

/-- C5 (amended): On the first activation of `process()` with a signer
configured, the queue reads the signer's on-chain nonce exactly once
(`countInit = 1`, and the read is the first event of the run) and never
re-reads it from the chain for the remainder of the run (no further
`nonceInit` event).  But the local counter is NOT incremented per submission
attempt: after the whole run it still equals the initial on-chain nonce —
`getNextNonce` is dead code, and the kind-specific submitters (including
`QIEGameNFT.mintGameNFT`, embedded in `GameHistory.jsx`) never consume the
queue's counter. -/
theorem tq_nonce_discipline (oracle : Nat → Bool) (fuel n : Nat) (st : QState) (sn : Nat)
    (hp : st.processing = false) (hq0 : st.queue ≠ []) (hsg : st.signerNonce = some sn)
    (hcn : st.currentNonce = none) (hn : 1 ≤ n) :
    countInit (runQueue oracle fuel n st).2 = 1 ∧
    (∃ t, (runQueue oracle fuel n st).2 = QEvent.nonceInit sn :: t) ∧
    (runQueue oracle fuel n st).1.currentNonce = some sn := by
  obtain ⟨h1, h2, h3⟩ := rq_nonce_none oracle fuel n st sn hp hq0 hsg hcn hn
  exact ⟨h3, h1, h2⟩

/-- Witness for C5 at a concrete one-element queue. -/
theorem tq_nonce_discipline_witness :
    countInit (runQueue (fun _ => true) 2 2
      (initialState [newQueuedTx 0 0 .LOG {}] (some 5))).2 = 1 ∧
    (∃ t, (runQueue (fun _ => true) 2 2
      (initialState [newQueuedTx 0 0 .LOG {}] (some 5))).2 = QEvent.nonceInit 5 :: t) ∧
    (runQueue (fun _ => true) 2 2
      (initialState [newQueuedTx 0 0 .LOG {}] (some 5))).1.currentNonce = some 5 :=
  tq_nonce_discipline (fun _ => true) 2 2
    (initialState [newQueuedTx 0 0 .LOG {}] (some 5)) 5 rfl (by decide) rfl rfl
    (by omega)

/-- C6: For every malformed enqueue payload — a LOG payload (with all required
fields present) whose player address is malformed, whose bet amount is
negative (or not a number), whose payout is negative (or not a number), or
whose `result` is missing/null; or an NFT payload (with a valid player
address) whose metadata lacks a truthy `name`, `description` or `attributes` —
`enqueue` rejects synchronously with the corresponding descriptive error and
returns the state unchanged: nothing is queued. -/
theorem tq_enqueue_validation (st : QState) (fid now : Nat) (d : LogNFTData)
    (h1 : isMissing d.gameType = false) (h2 : isMissing d.playerAddress = false)
    (h3 : isMissing d.betAmount = false) (h4 : isMissing d.payout = false) :
    (isMissing d.result = false → ethersIsAddress d.playerAddress = false →
      enqueue st fid now (some { type := .string "LOG", data := some d }) =
        (st, .error "Invalid player address in log transaction")) ∧
    (isMissing d.result = false → ethersIsAddress d.playerAddress = true →
      invalidAmount d.betAmount = true →
      enqueue st fid now (some { type := .string "LOG", data := some d }) =
        (st, .error "Invalid bet amount in log transaction")) ∧
    (isMissing d.result = false → ethersIsAddress d.playerAddress = true →
      invalidAmount d.betAmount = false → invalidAmount d.payout = true →
      enqueue st fid now (some { type := .string "LOG", data := some d }) =
        (st, .error "Invalid payout amount in log transaction")) ∧
    (isMissing d.result = true →
      enqueue st fid now (some { type := .string "LOG", data := some d }) =
        (st, .error "Log transaction missing required field: result")) ∧
    (truthy d.playerAddress = true → ethersIsAddress d.playerAddress = true →
      ∀ nm ds ats, d.metadata = .metaObj nm ds ats →
        (truthy nm = false →
          enqueue st fid now (some { type := .string "NFT", data := some d }) =
            (st, .error "NFT metadata missing required field: name")) ∧
        (truthy nm = true → truthy ds = false →
          enqueue st fid now (some { type := .string "NFT", data := some d }) =
            (st, .error "NFT metadata missing required field: description")) ∧
        (truthy nm = true → truthy ds = true → truthy ats = false →
          enqueue st fid now (some { type := .string "NFT", data := some d }) =
            (st, .error "NFT metadata missing required field: attributes"))) := by
  have hLOG : ∀ e, validateLogTransaction d = .error e →
      enqueue st fid now (some { type := .string "LOG", data := some d }) =
        (st, .error e) := by
    intro e he
    unfold enqueue
    have hv : validateTransaction (some { type := .string "LOG", data := some d }) =
        .error e := by
      show (validateLogTransaction d).map (fun _ => (TxType.LOG, d)) = .error e
      rw [he]
      rfl
    rw [hv]
  have hNFT : ∀ e, validateNFTTransaction d = .error e →
      enqueue st fid now (some { type := .string "NFT", data := some d }) =
        (st, .error e) := by
    intro e he
    unfold enqueue
    have hv : validateTransaction (some { type := .string "NFT", data := some d }) =
        .error e := by
      show (validateNFTTransaction d).map (fun _ => (TxType.NFT, d)) = .error e
      rw [he]
      rfl
    rw [hv]
  refine ⟨?_, ?_, ?_, ?_, ?_⟩
  · intro hres haddr
    exact hLOG _ (by simp [validateLogTransaction, h1, h2, h3, h4, hres, haddr])
  · intro hres haddr hbet
    exact hLOG _ (by simp [validateLogTransaction, h1, h2, h3, h4, hres, haddr, hbet])
  · intro hres haddr hbet hpay
    exact hLOG _ (by simp [validateLogTransaction, h1, h2, h3, h4, hres, haddr, hbet, hpay])
  · intro hres
    exact hLOG _ (by simp [validateLogTransaction, h1, h2, h3, h4, hres])
  · intro htr haddr nm ds ats hmeta
    have hmt : truthy (JSVal.metaObj nm ds ats) = true := rfl
    have hto : typeofObject (JSVal.metaObj nm ds ats) = true := rfl
    have hmn : metaName (JSVal.metaObj nm ds ats) = nm := rfl
    have hmd : metaDescription (JSVal.metaObj nm ds ats) = ds := rfl
    have hma : metaAttributes (JSVal.metaObj nm ds ats) = ats := rfl
    refine ⟨?_, ?_, ?_⟩
    · intro hnm
      exact hNFT _ (by
        simp [validateNFTTransaction, htr, haddr, hmeta, hmt, hto, hmn, hnm])
    · intro hnm hds
      exact hNFT _ (by
        simp [validateNFTTransaction, htr, haddr, hmeta, hmt, hto, hmn, hmd, hnm, hds])
    · intro hnm hds hats
      exact hNFT _ (by
        simp [validateNFTTransaction, htr, haddr, hmeta, hmt, hto, hmn, hmd, hma,
          hnm, hds, hats])

/-- Witness for C6: a LOG payload with a malformed player address is rejected
and the state is unchanged. -/
theorem tq_enqueue_validation_witness :
    enqueue (initialState [] none) 7 0
      (some { type := .string "LOG",
              data := some { gameType := .string "ROULETTE",
                             playerAddress := .string "invalid-address",
                             betAmount := .number (1 / 10),
                             payout := .number (1 / 2),
                             result := .object } }) =
      (initialState [] none, .error "Invalid player address in log transaction") :=
  (tq_enqueue_validation (initialState [] none) 7 0
      { gameType := .string "ROULETTE", playerAddress := .string "invalid-address",
        betAmount := .number (1 / 10), payout := .number (1 / 2), result := .object }
      rfl rfl rfl rfl).1 rfl (by decide)

/-- C7: with no signer configured, `process()` (and every chain of scheduled
re-activations) is a no-op that does not throw: the state is returned
unchanged with an empty event trace, every enqueued operation that was
`PENDING` remains `PENDING` with all fields unchanged, and `getStats().total`
equals the number of queued operations. -/
theorem tq_process_no_signer (oracle : Nat → Bool) (fuel n : Nat) (st : QState)
    (hsg : st.signerNonce = none) :
    runQueue oracle fuel n st = (st, []) ∧
    ((∀ tx ∈ st.queue, tx.status = .PENDING) →
      ∀ tx ∈ (runQueue oracle fuel n st).1.queue, tx.status = .PENDING) ∧
    fieldOf (getStats (runQueue oracle fuel n st).1) "total" =
      some (.number st.queue.length) := by
  have h := rq_no_signer oracle fuel n st hsg
  refine ⟨h, ?_, ?_⟩
  · intro hall tx htx
    rw [h] at htx
    exact hall tx htx
  · rw [h]
    exact getStats_total st

/-- Witness for C7 at a concrete two-element queue without a signer. -/
theorem tq_process_no_signer_witness :
    runQueue (fun _ => true) 2 2
        (initialState [newQueuedTx 0 0 .LOG {}, newQueuedTx 1 0 .NFT {}] none) =
      (initialState [newQueuedTx 0 0 .LOG {}, newQueuedTx 1 0 .NFT {}] none, []) ∧
    ((∀ tx ∈ (initialState [newQueuedTx 0 0 .LOG {}, newQueuedTx 1 0 .NFT {}]
        none).queue, tx.status = .PENDING) →
      ∀ tx ∈ (runQueue (fun _ => true) 2 2
        (initialState [newQueuedTx 0 0 .LOG {}, newQueuedTx 1 0 .NFT {}]
          none)).1.queue, tx.status = .PENDING) ∧
    fieldOf (getStats (runQueue (fun _ => true) 2 2
        (initialState [newQueuedTx 0 0 .LOG {}, newQueuedTx 1 0 .NFT {}]
          none)).1) "total" =
      some (.number (initialState [newQueuedTx 0 0 .LOG {}, newQueuedTx 1 0 .NFT {}]
        none).queue.length) :=
  tq_process_no_signer (fun _ => true) 2 2
    (initialState [newQueuedTx 0 0 .LOG {}, newQueuedTx 1 0 .NFT {}] none) rfl

/-- C8: for every retry count `n` and every jitter draw `r ∈ [0, 1)`, the
computed backoff delay `d` satisfies
`min(1000 * 2^n, 30000) ≤ d ≤ min(1000 * 2^n, 30000) * 1.1`: the delay is the
capped exponential base value plus a random jitter of at most 10% of it. -/
theorem tq_backoff_bounds (n : Nat) (r : ℚ) (h0 : 0 ≤ r) (h1 : r < 1) :
    ((min (1000 * 2 ^ n) 30000 : ℕ) : ℤ) ≤ calculateRetryDelay r n ∧
    (calculateRetryDelay r n : ℚ) ≤ ((min (1000 * 2 ^ n) 30000 : ℕ) : ℚ) * (11 / 10) := by
  unfold calculateRetryDelay baseDelay maxDelay
  have hcast : ((min (1000 * 2 ^ n) 30000 : ℕ) : ℚ) =
      min ((1000 : ℚ) * 2 ^ n) (30000 : ℚ) := by
    push_cast [Nat.cast_min]
    norm_num
  have hDpos : 0 < min ((1000 : ℚ) * 2 ^ n) (30000 : ℚ) := by
    apply lt_min
    · positivity
    · norm_num
  have hjnn : 0 ≤ r * (1 / 10) * min ((1000 : ℚ) * 2 ^ n) (30000 : ℚ) := by positivity
  have hjle : r * (1 / 10) * min ((1000 : ℚ) * 2 ^ n) (30000 : ℚ) ≤
      (1 / 10) * min ((1000 : ℚ) * 2 ^ n) (30000 : ℚ) := by
    nlinarith
  constructor
  · rw [Int.le_floor]
    push_cast [hcast]
    linarith
  · have hfle := Int.floor_le (min ((1000 : ℚ) * 2 ^ n) (30000 : ℚ) +
      r * (1 / 10) * min ((1000 : ℚ) * 2 ^ n) (30000 : ℚ))
    rw [hcast]
    linarith

/-- Witness for C8 at `n = 0`, `r = 1/2`. -/
theorem tq_backoff_bounds_witness :
    ((min (1000 * 2 ^ 0) 30000 : ℕ) : ℤ) ≤ calculateRetryDelay (1 / 2) 0 ∧
    (calculateRetryDelay (1 / 2) 0 : ℚ) ≤
      ((min (1000 * 2 ^ 0) 30000 : ℕ) : ℚ) * (11 / 10) :=
  tq_backoff_bounds 0 (1 / 2) (by norm_num) (by norm_num)

lemma fieldOf_mem {l : List (String × JSVal)} {k : String} {v : JSVal}
    (h : fieldOf l k = some v) : v ∈ l.map Prod.snd := by
  induction l with
  | nil => cases h
  | cons p rest ih =>
    simp only [fieldOf] at h
    by_cases hp : p.1 = k
    · rw [if_pos hp] at h
      rw [← Option.some.inj h]
      exact List.mem_map_of_mem Prod.snd (List.mem_cons_self _ _)
    · rw [if_neg hp] at h
      exact List.mem_cons_of_mem _ (ih h)

/-- The field layout C9 claims for `getStats`: some field holds the in-flight
(`PROCESSING`) count as a number and a distinct field holds the
processing-loop flag as a boolean. -/
def StatsSeparateFields (st : QState) : Prop :=
  ∃ k1 k2 : String, k1 ≠ k2 ∧
    fieldOf (getStats st) k1 = some (.number (countStatus .PROCESSING st.queue)) ∧
    fieldOf (getStats st) k2 = some (.boolean st.processing)

/-- C9 counterexample: on a state with one in-flight transaction and an idle
loop, no field of the `getStats` object holds the boolean flag at all — the
object literal's duplicate `processing` key makes the flag's slot collide
with the in-flight counter, and the counting loop has turned it into a
number — so the in-flight count and the loop flag are not distinct fields. -/
theorem tq_stats_fields_cex :
    ¬ StatsSeparateFields
      { queue := [{ newQueuedTx 0 0 .LOG {} with status := .PROCESSING }],
        processing := false, currentNonce := none, signerNonce := none, clock := 0 } := by
  rintro ⟨k1, k2, hne, h1, h2⟩
  have hmem := fieldOf_mem h2
  revert hmem
  decide

/-- C9 (amended): `getStats` returns the total and the pending, completed and
failed counts in fields of those names; the in-flight count and the loop flag
share the single field `processing` (the duplicate key in the object literal
discards the numeric initializer), which holds the boolean loop flag whenever
no queued operation is in the `PROCESSING` state. -/
theorem tq_stats_fields (st : QState) (h : ∀ tx ∈ st.queue, tx.status ≠ .PROCESSING) :
    fieldOf (getStats st) "total" = some (.number st.queue.length) ∧
    fieldOf (getStats st) "pending" = some (.number (countStatus .PENDING st.queue)) ∧
    fieldOf (getStats st) "completed" =
      some (.number (countStatus .COMPLETED st.queue)) ∧
    fieldOf (getStats st) "failed" = some (.number (countStatus .FAILED st.queue)) ∧
    fieldOf (getStats st) "processing" = some (.boolean st.processing) := by
  rw [getStats_eq_shape st h]
  refine ⟨?_, ?_, ?_, ?_, ?_⟩ <;> simp [statsShape, fieldOf]

/-- Witness for C9's amended field layout at a concrete state. -/
theorem tq_stats_fields_witness :
    fieldOf (getStats (initialState [newQueuedTx 0 0 .LOG {}] none)) "total" =
      some (.number (initialState [newQueuedTx 0 0 .LOG {}] none).queue.length) ∧
    fieldOf (getStats (initialState [newQueuedTx 0 0 .LOG {}] none)) "pending" =
      some (.number (countStatus .PENDING
        (initialState [newQueuedTx 0 0 .LOG {}] none).queue)) ∧
    fieldOf (getStats (initialState [newQueuedTx 0 0 .LOG {}] none)) "completed" =
      some (.number (countStatus .COMPLETED
        (initialState [newQueuedTx 0 0 .LOG {}] none).queue)) ∧
    fieldOf (getStats (initialState [newQueuedTx 0 0 .LOG {}] none)) "failed" =
      some (.number (countStatus .FAILED
        (initialState [newQueuedTx 0 0 .LOG {}] none).queue)) ∧
    fieldOf (getStats (initialState [newQueuedTx 0 0 .LOG {}] none)) "processing" =
      some (.boolean (initialState [newQueuedTx 0 0 .LOG {}] none).processing) :=
  tq_stats_fields (initialState [newQueuedTx 0 0 .LOG {}] none) (by decide)

/-- C10: NFT payload validation requires `name`, `description` and
`attributes` to be truthy, not merely present: a metadata object whose `name`
(or `description`) is present but falsy — e.g. the empty string — is rejected
with the corresponding missing-field error, while an empty `attributes` array
(truthy, like every object) is accepted and the operation is enqueued. -/
theorem tq_nft_truthy_validation (st : QState) (fid now : Nat) (d : LogNFTData)
    (htr : truthy d.playerAddress = true) (haddr : ethersIsAddress d.playerAddress = true) :
    (∀ nm ds ats, truthy nm = false → d.metadata = .metaObj nm ds ats →
      enqueue st fid now (some { type := .string "NFT", data := some d }) =
        (st, .error "NFT metadata missing required field: name")) ∧
    (∀ nm ds ats, truthy nm = true → truthy ds = false →
      d.metadata = .metaObj nm ds ats →
      enqueue st fid now (some { type := .string "NFT", data := some d }) =
        (st, .error "NFT metadata missing required field: description")) ∧
    (∀ nm ds, truthy nm = true → truthy ds = true →
      d.metadata = .metaObj nm ds (.array 0) →
      enqueue st fid now (some { type := .string "NFT", data := some d }) =
        ({ st with queue := st.queue ++ [newQueuedTx fid now .NFT d] }, .ok fid)) := by
  have hNFT : ∀ e, validateNFTTransaction d = .error e →
      enqueue st fid now (some { type := .string "NFT", data := some d }) =
        (st, .error e) := by
    intro e he
    unfold enqueue
    have hv : validateTransaction (some { type := .string "NFT", data := some d }) =
        .error e := by
      show (validateNFTTransaction d).map (fun _ => (TxType.NFT, d)) = .error e
      rw [he]
      rfl
    rw [hv]
  refine ⟨?_, ?_, ?_⟩
  · intro nm ds ats hnm hmeta
    have hmt : truthy (JSVal.metaObj nm ds ats) = true := rfl
    have hto : typeofObject (JSVal.metaObj nm ds ats) = true := rfl
    have hmn : metaName (JSVal.metaObj nm ds ats) = nm := rfl
    exact hNFT _ (by
      simp [validateNFTTransaction, htr, haddr, hmeta, hmt, hto, hmn, hnm])
  · intro nm ds ats hnm hds hmeta
    have hmt : truthy (JSVal.metaObj nm ds ats) = true := rfl
    have hto : typeofObject (JSVal.metaObj nm ds ats) = true := rfl
    have hmn : metaName (JSVal.metaObj nm ds ats) = nm := rfl
    have hmd : metaDescription (JSVal.metaObj nm ds ats) = ds := rfl
    exact hNFT _ (by
      simp [validateNFTTransaction, htr, haddr, hmeta, hmt, hto, hmn, hmd, hnm, hds])
  · intro nm ds hnm hds hmeta
    have hval : validateNFTTransaction d = .ok () := by
      have hmt : truthy (JSVal.metaObj nm ds (.array 0)) = true := rfl
      have hto : typeofObject (JSVal.metaObj nm ds (.array 0)) = true := rfl
      have hmn : metaName (JSVal.metaObj nm ds (.array 0)) = nm := rfl
      have hmd : metaDescription (JSVal.metaObj nm ds (.array 0)) = ds := rfl
      have hma : truthy (metaAttributes (JSVal.metaObj nm ds (.array 0))) = true := rfl
      simp [validateNFTTransaction, htr, haddr, hmeta, hmt, hto, hmn, hmd, hma, hnm, hds]
    unfold enqueue
    have hv : validateTransaction (some { type := .string "NFT", data := some d }) =
        .ok (TxType.NFT, d) := by
      show (validateNFTTransaction d).map (fun _ => (TxType.NFT, d)) = .ok (TxType.NFT, d)
      rw [hval]
      rfl
    rw [hv]

/-- Witness for C10: an empty-string name is rejected; an empty attributes
array (with truthy name and description) is accepted. -/
theorem tq_nft_truthy_validation_witness :
    enqueue (initialState [] none) 7 0
      (some { type := .string "NFT"
              data := some { playerAddress := .string "0x1234567890123456789012345678901234567890"
                             metadata := .metaObj (.string "") (.string "desc") (.array 0) } }) =
      (initialState [] none, .error "NFT metadata missing required field: name") :=
  (tq_nft_truthy_validation (initialState [] none) 7 0
      { playerAddress := .string "0x1234567890123456789012345678901234567890"
        metadata := .metaObj (.string "") (.string "desc") (.array 0) }
      (by decide) (by decide)).1 (.string "") (.string "desc") (.array 0) rfl rfl
